import Mathlib

namespace KCP

/-- JSON values as produced and consumed by the chat/tool layer
(`json.loads` / `json.dumps`); numbers modelled as integers, floating-point
literals are out of scope for the claims verified here. -/
inductive Json where
  | null
  | bool (b : Bool)
  | num (n : Int)
  | str (s : String)
  | arr (elems : List Json)
  | obj (fields : List (String × Json))

def lbrace : String := String.singleton (Char.ofNat 123)

def rbrace : String := String.singleton (Char.ofNat 125)

def listStarts {α : Type} [DecidableEq α] : List α → List α → Bool
  | [], _ => true
  | _ :: _, [] => false
  | a :: as, b :: bs => a = b && listStarts as bs

def listHasRun {α : Type} [DecidableEq α] (needle : List α) : List α → Bool
  | [] => needle.isEmpty
  | a :: t => listStarts needle (a :: t) || listHasRun needle t

/-- `needle in hay` on Python strings. -/
def strContains (hay needle : String) : Bool :=
  listHasRun needle.toList hay.toList

/-- ASCII lower-casing (Python `str.lower` on the ASCII identifiers and
messages this code deals with). -/
def asciiLowerChar (c : Char) : Char :=
  if 65 ≤ c.toNat ∧ c.toNat ≤ 90 then Char.ofNat (c.toNat + 32) else c

def asciiLower (s : String) : String :=
  String.mk (s.toList.map asciiLowerChar)

/-! ## A JSON reader modelling `json.loads`

`json.loads` either returns a parsed value or raises `json.JSONDecodeError`;
here parse failure is `none`.  Numeric literals are read as integers (no claim
involves floating-point JSON). -/

/-- Left curly bracket character. -/
def lch : Char := Char.ofNat 123

/-- Right curly bracket character. -/
def rch : Char := Char.ofNat 125

def skipWs : List Char → List Char
  | c :: cs => if c = ' ' ∨ c = '\t' ∨ c = '\n' ∨ c = '\r' then skipWs cs else c :: cs
  | [] => []

def isDigitCh (c : Char) : Bool := 48 ≤ c.toNat && c.toNat ≤ 57

def takeDigits : List Char → List Char × List Char
  | c :: cs =>
    if isDigitCh c then
      let p := takeDigits cs
      (c :: p.1, p.2)
    else ([], c :: cs)
  | [] => ([], [])

def digitsToNat (ds : List Char) : Nat :=
  ds.foldl (fun a c => a * 10 + (c.toNat - 48)) 0

/-- Reads the body of a JSON string literal up to the closing quote,
resolving the common escapes. -/
def parseStrChars : List Char → Option (List Char × List Char)
  | [] => none
  | c :: cs =>
    if c = '"' then some ([], cs)
    else if c = '\\' then
      match cs with
      | [] => none
      | e :: cs2 =>
        let ec := if e = 'n' then '\n' else if e = 't' then '\t' else e
        match parseStrChars cs2 with
        | some (s, r) => some (ec :: s, r)
        | none => none
    else
      match parseStrChars cs with
      | some (s, r) => some (c :: s, r)
      | none => none

mutual

def parseVal : Nat → List Char → Option (Json × List Char)
  | 0, _ => none
  | fuel+1, cs =>
    match skipWs cs with
    | [] => none
    | c :: rest =>
      if c = '"' then
        match parseStrChars rest with
        | some (s, r) => some (.str (String.mk s), r)
        | none => none
      else if c = lch then
        match skipWs rest with
        | d :: r1 =>
          if d = rch then some (.obj [], r1)
          else
            match parseFields fuel (d :: r1) with
            | some (fs, r2) =>
              match skipWs r2 with
              | e :: r3 => if e = rch then some (.obj fs, r3) else none
              | [] => none
            | none => none
        | [] => none
      else if c = '[' then
        match skipWs rest with
        | d :: r1 =>
          if d = ']' then some (.arr [], r1)
          else
            match parseElems fuel (d :: r1) with
            | some (vs, r2) =>
              match skipWs r2 with
              | e :: r3 => if e = ']' then some (.arr vs, r3) else none
              | [] => none
            | none => none
        | [] => none
      else if c = 't' then
        if listStarts "rue".toList rest then some (.bool true, rest.drop 3) else none
      else if c = 'f' then
        if listStarts "alse".toList rest then some (.bool false, rest.drop 4) else none
      else if c = 'n' then
        if listStarts "ull".toList rest then some (.null, rest.drop 3) else none
      else if c = '-' then
        match takeDigits rest with
        | ([], _) => none
        | (ds, r) => some (.num (-(digitsToNat ds : Int)), r)
      else if isDigitCh c then
        let p := takeDigits (c :: rest)
        some (.num (digitsToNat p.1), p.2)
      else none

def parseElems : Nat → List Char → Option (List Json × List Char)
  | 0, _ => none
  | fuel+1, cs =>
    match parseVal fuel cs with
    | none => none
    | some (v, r) =>
      match skipWs r with
      | c :: r2 =>
        if c = ',' then
          match parseElems fuel r2 with
          | some (vs, r3) => some (v :: vs, r3)
          | none => none
        else some ([v], c :: r2)
      | [] => some ([v], [])

def parseFields : Nat → List Char → Option (List (String × Json) × List Char)
  | 0, _ => none
  | fuel+1, cs =>
    match skipWs cs with
    | c :: r =>
      if c = '"' then
        match parseStrChars r with
        | some (k, r1) =>
          match skipWs r1 with
          | d :: r2 =>
            if d = ':' then
              match parseVal fuel r2 with
              | none => none
              | some (v, r3) =>
                match skipWs r3 with
                | e :: r4 =>
                  if e = ',' then
                    match parseFields fuel r4 with
                    | some (fs, r5) => some ((String.mk k, v) :: fs, r5)
                    | none => none
                  else some ([(String.mk k, v)], e :: r4)
                | [] => some ([(String.mk k, v)], [])
            else none
          | [] => none
        | none => none
      else none
    | [] => none

end

/-- `json.loads`: `some` on success, `none` where Python raises
`json.JSONDecodeError` (including trailing garbage, "Extra data"). -/
def Json.parse (s : String) : Option Json :=
  let cs := s.toList
  match parseVal (cs.length + 1) cs with
  | some (v, rest) => if skipWs rest = [] then some v else none
  | none => none

/-! ## Python-level helpers -/

/-- A raised Python exception: the class name and `str(e)`. -/
structure PyExc where
  name : String
  msg : String

/-- Python `a or b` on optional strings: `None` and `""` are falsy. -/
def pyOrOpt (a b : Option String) : Option String :=
  match a with
  | some s => if s = "" then b else some s
  | none => b

/-- Python `a or default` where `a` is an optional string. -/
def pyOrStr (a : Option String) (default : String) : String :=
  match a with
  | some s => if s = "" then default else s
  | none => default

/-- Truthiness filter for an optional string (used for `if delta.content:`
and the like): `None` and the empty string are falsy. -/
def truthyStr (o : Option String) : Option String :=
  match o with
  | some s => if s = "" then none else some s
  | none => none

/-! ## `app/observability.py` -/

/-- `classify_error` from `app/observability.py` (its locals `name` and
`msg` are the lower-cased exception class name and message, inlined here). -/
def classify_error (e : PyExc) : String :=
  if strContains (asciiLower e.name) "timeout" || strContains (asciiLower e.msg) "timeout" then
    "timeout"
  else if strContains (asciiLower e.name) "auth" || strContains (asciiLower e.msg) "unauthorized"
      || strContains (asciiLower e.msg) "invalid api key" then "auth"
  else if strContains (asciiLower e.name) "connection"
      || strContains (asciiLower e.msg) "network" then "network"
  else if strContains (asciiLower e.name) "validation"
      || strContains (asciiLower e.msg) "pydantic" then "validation"
  else "internal"

/-! ## `app/models.py` and `app/tools.py`: tool results and the executor -/

/-- `ToolResult` from `app/models.py`.  The `executed_at` wall-clock timestamp
is omitted: no claim concerns it and real time is out of scope.
`parameters` is `Dict[str, Any]` in the pydantic model; constructing a
`ToolResult` with a non-dict `parameters` value raises a pydantic
`ValidationError`, which the embedding of `execute_tool` surfaces as `.error`. -/
structure ToolResult where
  tool_name : String
  parameters : Json
  result : Json
  success : Bool
  error_message : Option String

/-- The pydantic `ValidationError` raised when `ToolResult(parameters=...)`
receives a value that is not a dictionary. -/
def validationExc : PyExc :=
  ⟨"ValidationError", "1 validation error for ToolResult: parameters must be a valid dictionary"⟩

/-- Weather data from `app/models.py` (`WeatherData`).  Optional floats are
modelled as optional integers; no claim depends on fractional temperatures. -/
structure WeatherData where
  location : String
  date : String
  temperature_f : Option Int
  temperature_c : Option Int
  conditions : String
  description : Option String
  precipitation_chance : Option Int
  humidity : Option Int
  wind_speed : Option Int
  outdoor_suitable : Bool
  uv_index : Option Int

/-- A Pinecone match as consumed by `VectorStore.search` (`match.id`,
`match.score`, `match.metadata`); the similarity score is modelled on an
integer scale. -/
structure MatchRec where
  id : String
  score : Int
  metadata : Option (List (String × Json))

/-- Oracle for the external Pinecone/OpenAI-embedding collaborators behind
`VectorStore` in `app/rag.py`: results or raised exceptions of the two
network calls.  The embedding vector carries no information the code inspects
beyond emptiness. -/
structure VectorStoreO where
  embedResult : String → Except PyExc (List Unit)
  queryResult : List Unit → Nat → Option Json → Except PyExc (List MatchRec)

/-- The tool execution context dict built in `chat_endpoint`
(`{"user_id": ..., "memory_manager": ..., "vector_store": ...}`); the memory
manager is not consulted by any embedded tool. -/
structure ToolCtx where
  user_id : String
  vector_store : Option VectorStoreO

/-- A registered tool handler: receives the keyword arguments (the fields of
the decoded argument dictionary) and the execution context, and either
returns a value or raises. -/
def ToolHandler : Type :=
  List (String × Json) → ToolCtx → Except PyExc Json

/-- The tool registry `tools : Dict[str, Callable]` from `app/tools.py`,
as an association list. -/
def lookupTool : List (String × ToolHandler) → String → Option ToolHandler
  | [], _ => none
  | (n, h) :: rest, name => if n = name then some h else lookupTool rest name

/-- `result if isinstance(result, dict) else {"result": result}`. -/
def wrapToolReturn (r : Json) : Json :=
  match r with
  | Json.obj fs => Json.obj fs
  | other => Json.obj [("result", other)]

/-- `execute_tool` from `app/tools.py`.

* unregistered name: returns a failed `ToolResult` with message
  `"Unknown tool: <name>"`;
* registered name, dict parameters: invokes the handler inside
  `try/except`, converting a raised exception into
  `ToolResult(success=False, error_message=str(e))`;
* non-dict parameters (as happens on the Anthropic path, which passes the
  raw argument text): `f(**parameters)` raises `TypeError`, which is caught,
  but the `ToolResult(parameters=...)` constructed in the handler (or in the
  unknown-tool branch) then raises a pydantic `ValidationError` that
  propagates out of `execute_tool`. -/
def execute_tool (registry : List (String × ToolHandler)) (tool_name : String)
    (parameters : Json) (context : ToolCtx) : Except PyExc ToolResult :=
  match lookupTool registry tool_name with
  | none =>
    match parameters with
    | Json.obj fs =>
      .ok ⟨tool_name, Json.obj fs, Json.obj [], false, some ("Unknown tool: " ++ tool_name)⟩
    | _ => .error validationExc
  | some handler =>
    match parameters with
    | Json.obj kvs =>
      match handler kvs context with
      | .ok r => .ok ⟨tool_name, Json.obj kvs, wrapToolReturn r, true, none⟩
      | .error e => .ok ⟨tool_name, Json.obj kvs, Json.obj [], false, some e.msg⟩
    | _ => .error validationExc

/-! ## `app/rag.py` -/

/-- Dictionary lookup on a JSON object field list. -/
def lookupKw : List (String × Json) → String → Option Json
  | [], _ => none
  | (k, v) :: rest, key => if k = key then some v else lookupKw rest key

/-- A string-valued keyword argument; non-string values are treated as
absent (no claim passes one). -/
def lookupStrKw (kvs : List (String × Json)) (key : String) : Option String :=
  match lookupKw kvs key with
  | some (Json.str s) => some s
  | _ => none

/-- A non-negative integer keyword argument with a default. -/
def lookupNatKw (kvs : List (String × Json)) (key : String) (default : Nat) : Nat :=
  match lookupKw kvs key with
  | some (Json.num n) => n.toNat
  | _ => default

def optStrJson : Option String → Json
  | some s => Json.str s
  | none => Json.null

def optIntJson : Option Int → Json
  | some n => Json.num n
  | none => Json.null

/-- `VectorStore.get_embedding`: the embedding call is wrapped in
`try/except`; on exception it logs and returns `[]`. -/
def get_embedding (vs : VectorStoreO) (text : String) : List Unit :=
  match vs.embedResult text with
  | .ok l => l
  | .error _ => []

/-- `VectorStore.search` from `app/rag.py`: the whole body is wrapped in
`try/except Exception`; an empty query embedding short-circuits to `[]`, and
any exception raised by the Pinecone query is caught, logged, and turned
into `[]`.  This function never raises. -/
def VectorStore.search (vs : VectorStoreO) (query : String) (top_k : Nat)
    (filter_dict : Option Json) : List Json :=
  let query_embedding := get_embedding vs query
  if query_embedding.isEmpty then []
  else
    match vs.queryResult query_embedding top_k filter_dict with
    | .error _ => []
    | .ok results =>
      results.map fun m =>
        Json.obj ([("id", Json.str m.id), ("score", Json.num m.score)] ++ m.metadata.getD [])

/-- Module-level `search_activities` from `app/rag.py`. -/
def rag_search_activities (vector_store : Option VectorStoreO) (query : String)
    (limit : Nat) (activity_type : Option String) : List Json :=
  match vector_store with
  | none => []
  | some vs =>
    let filter_dict :=
      match truthyStr activity_type with
      | some t => some (Json.obj [("type", Json.str t)])
      | none => none
    VectorStore.search vs query limit filter_dict

/-! ## Tool implementations from `app/tools.py` -/

/-- `act.get(key)` with `None` default. -/
def jget (act : Json) (key : String) : Json :=
  match act with
  | Json.obj fs => (lookupKw fs key).getD Json.null
  | _ => Json.null

/-- `"high" if act.get("score", 0) > 0.8 else "medium" if ... > 0.6 else
"low"`; the float thresholds 0.8/0.6 on the unit similarity scale are
modelled on the integer hundredths scale (80/60). -/
def matchQuality (score : Json) : String :=
  let n : Int := match score with | Json.num n => n | _ => 0
  if n > 80 then "high" else if n > 60 then "medium" else "low"

/-- One formatted search hit in `search_activities_tool`. -/
def formatActivity (act : Json) : Json :=
  Json.obj [
    ("id", jget act "id"),
    ("title", match jget act "title" with | Json.null => Json.str "Untitled" | v => v),
    ("type", jget act "type"),
    ("description", jget act "description"),
    ("age_group", jget act "development_age_group"),
    ("supplies", jget act "supplies"),
    ("score", jget act "score"),
    ("match_quality", Json.str (matchQuality (jget act "score")))]

/-- `search_activities_tool` from `app/tools.py` (registered as
`search_activities`).  `query` is a required keyword argument: when absent,
the call itself raises `TypeError` (caught by `execute_tool`).  The body's
`try/except` around the search is dead in this model because
`VectorStore.search` never raises. -/
def search_activities_tool (kwargs : List (String × Json)) (ctx : ToolCtx) :
    Except PyExc Json :=
  match lookupStrKw kwargs "query" with
  | none =>
    .error ⟨"TypeError", "search_activities_tool missing 1 required positional argument: query"⟩
  | some query =>
    let activity_type := lookupStrKw kwargs "activity_type"
    let age_group := lookupStrKw kwargs "age_group"
    let limit := lookupNatKw kwargs "limit" 5
    match ctx.vector_store with
    | none =>
      .ok (Json.obj [("success", Json.bool false),
        ("error", Json.str "Vector store not available"), ("activities", Json.arr [])])
    | some _ =>
      let enhanced_query :=
        match truthyStr age_group with
        | some ag => query ++ " for " ++ ag
        | none => query
      let activities := rag_search_activities ctx.vector_store enhanced_query limit activity_type
      let formatted := activities.map formatActivity
      .ok (Json.obj [("success", Json.bool true), ("query", Json.str query),
        ("age_group", optStrJson age_group), ("activity_type", optStrJson activity_type),
        ("count", Json.num formatted.length), ("activities", Json.arr formatted)])

/-- `UnboundLocalError` raised by `check_weather_tool` when its `except`
branch runs: the code after the `try/except` reads the local `weather`,
which is only bound when `check_weather` succeeded. -/
def unboundLocalExc : PyExc :=
  ⟨"UnboundLocalError", "cannot access local variable weather where it is not associated with a value"⟩

/-- `weather.temperature_f and weather.temperature_f < bound` (Python
truthiness: `None` and `0` are falsy). -/
def tfTruthyLt (tf : Option Int) (bound : Int) : Bool :=
  match tf with
  | some t => t ≠ 0 && t < bound
  | none => false

def tfTruthyGt (tf : Option Int) (bound : Int) : Bool :=
  match tf with
  | some t => t ≠ 0 && t > bound
  | none => false

/-- Placeholder for `datetime.now().strftime("%Y-%m-%d")` in the fallback
dict (wall-clock time; the dict is discarded before being returned). -/
def todayStr : String := "1970-01-01"

/-- `check_weather_tool` from `app/tools.py` (registered as
`check_weather`), parametrised by the external weather collaborator
(`check_weather` from `app/weather.py`).

On collaborator success it returns the planning dictionary built from the
`WeatherData`.  On collaborator exception the `except` branch builds a
fallback `weather_dict`, but the subsequent `if weather.outdoor_suitable:`
reads the unbound local `weather` and raises `UnboundLocalError`:
the fallback dictionary is dead code. -/
def check_weather_tool (weatherO : String → Option String → Except PyExc WeatherData)
    (kwargs : List (String × Json)) (_ctx : ToolCtx) : Except PyExc Json :=
  let location := lookupStrKw kwargs "location"
  let date := lookupStrKw kwargs "date"
  match weatherO (pyOrStr location "Lansing, MI") date with
  | .error _e =>
    let _fallback_weather_dict : Json := Json.obj [
      ("location", Json.str (pyOrStr location "Lansing, MI")),
      ("date", Json.str (pyOrStr date todayStr)),
      ("temperature_f", Json.num 72), ("temperature_c", Json.num 22),
      ("conditions", Json.str "sunny"), ("description", Json.str "clear sky"),
      ("precipitation_chance", Json.num 0), ("humidity", Json.num 45),
      ("wind_speed", Json.num 5), ("outdoor_suitable", Json.bool true),
      ("uv_index", Json.num 3), ("note", Json.str "Using fallback weather data")]
    .error unboundLocalExc
  | .ok weather =>
    let planning_note :=
      if weather.outdoor_suitable then
        if weather.conditions = "sunny" then "Great day for outdoor activities!"
        else "Outdoor activities are suitable today."
      else
        if weather.conditions = "rain" ∨ weather.conditions = "snow"
            ∨ weather.conditions = "storm" then
          "Indoor activities recommended due to " ++ weather.conditions ++ "."
        else if tfTruthyLt weather.temperature_f 32 then
          "Very cold - keep activities indoors or brief outdoor periods."
        else if tfTruthyGt weather.temperature_f 90 then
          "Very hot - stay hydrated and prefer indoor/cool activities."
        else "Indoor activities recommended for today."
    .ok (Json.obj [
      ("location", Json.str weather.location),
      ("date", Json.str weather.date),
      ("temperature", Json.obj [
        ("fahrenheit", optIntJson weather.temperature_f),
        ("celsius", optIntJson weather.temperature_c)]),
      ("conditions", Json.str weather.conditions),
      ("description", optStrJson weather.description),
      ("precipitation_chance", optIntJson weather.precipitation_chance),
      ("humidity", optIntJson weather.humidity),
      ("wind_speed", optIntJson weather.wind_speed),
      ("outdoor_suitable", Json.bool weather.outdoor_suitable),
      ("planning_note", Json.str planning_note)])

/-- The decorator-built registry `tools` restricted to the handlers the
claims exercise; the remaining registered tools (constraint search,
schedule/activity generation, preferences, persistence) are not referenced
by any claim. -/
def builtinTools (weatherO : String → Option String → Except PyExc WeatherData) :
    List (String × ToolHandler) :=
  [("check_weather", check_weather_tool weatherO),
   ("search_activities", search_activities_tool)]

/-! ## `app/chat.py`: outward events and generator traces

The chat generators yield SSE lines `data: {json.dumps({'type': ..., 'data':
...})}`; each yielded line carries exactly one typed event, modelled by
`Event`.  A generator run is modelled as a list of `Action`s: the events it
yields, the messages it appends to the conversation for the next provider
call, and its `asyncio.sleep` pauses. -/

inductive Event where
  | content (content : String)
  | toolCall (name : String) (arguments : Json)
  | error (message : String) (error_type : String)
  | done (conversation_id : Option String)

def Event.isDone : Event → Bool
  | .done _ => true
  | _ => false

def Event.isError : Event → Bool
  | .error _ _ => true
  | _ => false

def Event.isToolCallEv : Event → Bool
  | .toolCall _ _ => true
  | _ => false

def Event.contentOf : Event → Option String
  | .content s => some s
  | _ => none

inductive Action (μ : Type) where
  | emit (e : Event)
  | append (m : μ)
  | sleepSmall
  | wait (seconds : Nat)

/-- The events a generator run yields, in order. -/
def eventsOf {μ : Type} (as : List (Action μ)) : List Event :=
  as.filterMap fun a => match a with | .emit e => some e | _ => none

def waitsOf {μ : Type} (as : List (Action μ)) : List Nat :=
  as.filterMap fun a => match a with | .wait n => some n | _ => none

/-! ### OpenAI streaming path (`stream_openai_with_tools`) -/

/-- A fully assembled tool call (`{"id", "type": "function", "function":
{"name", "arguments"}}`); `arguments` is the raw accumulated JSON text. -/
structure ToolCallObj where
  id : String
  name : String
  arguments : String

/-- `tc.function` on a streamed tool-call delta.  The OpenAI wire always
carries a `function` object on tool-call deltas (the code reads
`tc.function.name` unconditionally in the new-call branch). -/
structure FuncDelta where
  name : Option String
  arguments : Option String

/-- One entry of `delta.tool_calls`. -/
structure ToolCallDelta where
  id : Option String
  function : FuncDelta

/-- One streamed chunk's `chunk.choices[0].delta`. -/
structure OpenAIChunk where
  content : Option String
  tool_calls : List ToolCallDelta

/-- Conversation messages of the OpenAI loop.  A `tool` message's `content`
in the code is `json.dumps` of the value recorded here (the serialization is
injective and immaterial to the claims). -/
inductive OMsg where
  | plain (role content : String)
  | assistant (content : Option String) (tool_calls : List ToolCallObj)
  | tool (tool_call_id : String) (content : Json)

def OMsg.isToolMsg : OMsg → Bool
  | .tool _ _ => true
  | _ => false

def OMsg.isAssistantMsg : OMsg → Bool
  | .assistant _ _ => true
  | _ => false

/-- In-flight state of the chunk loop in `stream_openai_with_tools`:
`content_buffer`, `tool_calls_buffer`, `current_tool_call`, plus the actions
performed so far while streaming. -/
structure OAssembly where
  content_buffer : String
  tool_calls_buffer : List ToolCallObj
  current_tool_call : Option ToolCallObj
  actions : List (Action OMsg)

def initOAssembly : OAssembly := ⟨"", [], none, []⟩

/-- Handling of one `tc` in `delta.tool_calls`:

* `if tc.id:` — a delta carrying a (truthy) id opens a fresh accumulator;
  if an accumulator with a *different* id is open it is finalized (pushed to
  `tool_calls_buffer`) first; an accumulator with the *same* id is replaced
  without being pushed.
* otherwise (`elif current_tool_call and tc.function:`) truthy `name`
  overwrites the accumulator's name and truthy `arguments` is concatenated
  onto the accumulated argument text, in arrival order. -/
def processToolCallDelta (st : OAssembly) (tc : ToolCallDelta) : OAssembly :=
  match truthyStr tc.id with
  | some tid =>
    let buf :=
      match st.current_tool_call with
      | some c => if c.id ≠ tid then st.tool_calls_buffer ++ [c] else st.tool_calls_buffer
      | none => st.tool_calls_buffer
    { st with
      tool_calls_buffer := buf
      current_tool_call :=
        some ⟨tid, (tc.function.name).getD "", (tc.function.arguments).getD ""⟩ }
  | none =>
    match st.current_tool_call with
    | some c =>
      let c1 := match truthyStr tc.function.name with
        | some n => { c with name := n }
        | none => c
      let c2 := match truthyStr tc.function.arguments with
        | some a => { c1 with arguments := c1.arguments ++ a }
        | none => c1
      { st with current_tool_call := some c2 }
    | none => st

/-- Handling of one streamed chunk: truthy content is appended to the buffer
and forwarded immediately (`yield` + `asyncio.sleep(0.01)`), then the
tool-call deltas are folded in order. -/
def processChunk (st : OAssembly) (chunk : OpenAIChunk) : OAssembly :=
  let st1 :=
    match truthyStr chunk.content with
    | some s =>
      { st with
        content_buffer := st.content_buffer ++ s
        actions := st.actions ++ [.emit (.content s), .sleepSmall] }
    | none => st
  chunk.tool_calls.foldl processToolCallDelta st1

def processChunks (chunks : List OpenAIChunk) : OAssembly :=
  chunks.foldl processChunk initOAssembly

/-- End-of-stream finalization: `if current_tool_call:
tool_calls_buffer.append(current_tool_call)`. -/
def finalizeBuffer (st : OAssembly) : List ToolCallObj :=
  match st.current_tool_call with
  | some c => st.tool_calls_buffer ++ [c]
  | none => st.tool_calls_buffer

/-- `try: tool_args = json.loads(...) except json.JSONDecodeError:
tool_args = {}`. -/
def toolArgsOf (s : String) : Json :=
  (Json.parse s).getD (Json.obj [])

/-- The per-call execution loop of `stream_openai_with_tools`: for each
buffered call, emit the `tool_call` event, run `execute_tool`, and append
the `tool` role message with the serialized result (or `{"error": ...}`).
A raised exception (only possible from the `ToolResult` pydantic validation,
see `execute_tool`) aborts the loop after that call's `tool_call` event. -/
def execCalls (registry : List (String × ToolHandler)) (ctx : ToolCtx) :
    List ToolCallObj → List (Action OMsg) × Option PyExc
  | [] => ([], none)
  | c :: rest =>
    let tool_args := toolArgsOf c.arguments
    let ev : Action OMsg := .emit (.toolCall c.name tool_args)
    match execute_tool registry c.name tool_args ctx with
    | .error e => ([ev], some e)
    | .ok r =>
      let msg : OMsg := .tool c.id
        (if r.success then r.result else Json.obj [("error", optStrJson r.error_message)])
      let p := execCalls registry ctx rest
      (ev :: .append msg :: p.1, p.2)

def capNote : String :=
  "\n\n[Note: Reached maximum tool iterations. Response may be incomplete.]\n\n"

/-- Oracle for one streaming call of the provider: the chunks the round
delivers and, when the call (or the chunk iteration) raises, the exception
raised after those chunks.  Indexed by the 1-based `iteration` counter; the
current message list, which the real call consumes, is abstracted by this
indexing. -/
def OProvider : Type := Nat → List OpenAIChunk × Option PyExc

/-- The `while iteration < max_iterations` loop of
`stream_openai_with_tools`, as the trace of actions it performs.  `fuel` is
the number of remaining iterations (`max_iterations - iteration`), `iter`
the iterations already taken. -/
def openaiGo (provider : OProvider) (registry : List (String × ToolHandler))
    (ctx : ToolCtx) : Nat → Nat → List (Action OMsg)
  | 0, _ => [.emit (.content capNote)]
  | fuel+1, iter =>
    let iteration := iter + 1
    let pr := provider iteration
    let st := processChunks pr.1
    match pr.2 with
    | some e => st.actions ++ [.emit (.error e.msg (classify_error e))]
    | none =>
      let buf := finalizeBuffer st
      if buf.isEmpty then st.actions
      else
        let amsg : OMsg := .assistant (truthyStr (some st.content_buffer)) buf
        let p := execCalls registry ctx buf
        match p.2 with
        | some e => st.actions ++ (.append amsg :: p.1) ++ [.emit (.error e.msg (classify_error e))]
        | none => st.actions ++ (.append amsg :: p.1) ++ openaiGo provider registry ctx fuel iteration

/-- `stream_openai_with_tools`.  The initial message list (system prompt +
history) only feeds the provider calls, which the oracle abstracts. -/
def stream_openai_with_tools (provider : OProvider)
    (registry : List (String × ToolHandler)) (ctx : ToolCtx)
    (max_iterations : Nat := 10) : List (Action OMsg) :=
  openaiGo provider registry ctx max_iterations 0

/-! ### Anthropic streaming path (`stream_anthropic_with_tools`) -/

/-- A tool-use block being accumulated (`{"type": "tool_use", "id", "name",
"input"}`); `input` is the raw accumulated partial-JSON text. -/
structure ABlock where
  id : String
  name : String
  input : String

/-- One event of the Anthropic stream, covering exactly the shapes the code
inspects: a text delta (`event.delta.text`), `content_block_start`,
`content_block_delta` (with or without `input_json_delta`), and
`content_block_stop`. -/
inductive AEvent where
  | text (s : String)
  | blockStart (isToolUse : Bool) (id name : String)
  | blockDelta (isInputJson : Bool) (partial_json : String)
  | blockStop

/-- A block of an assistant message in Claude format. -/
inductive AContent where
  | text (s : String)
  | toolUse (id name : String) (input : Json)

/-- Conversation messages of the Anthropic loop; `toolResults` is the
`{"role": "user", "content": [tool_result blocks]}` message, each block
carrying `tool_use_id` and the serialized result. -/
inductive AMsg where
  | plain (role content : String)
  | assistant (content : List AContent)
  | toolResults (results : List (String × Json))

def AMsg.toolResultCount : AMsg → Nat
  | .toolResults rs => rs.length
  | _ => 0

/-- In-flight state of the event loop in `stream_anthropic_with_tools`. -/
structure AAssembly where
  content_buffer : String
  tool_use_blocks : List ABlock
  current_block : Option ABlock
  actions : List (Action AMsg)

/-- Handling of one stream event:

* truthy text deltas are buffered and forwarded immediately;
* `content_block_start` with a `tool_use` block opens a fresh accumulator
  (without finalizing a previously open one — the wire interposes a
  `content_block_stop`);
* `input_json_delta` fragments are concatenated in arrival order;
* `content_block_stop` finalizes the open accumulator. -/
def processAEvent (st : AAssembly) (ev : AEvent) : AAssembly :=
  match ev with
  | .text s =>
    if s = "" then st
    else
      { st with
        content_buffer := st.content_buffer ++ s
        actions := st.actions ++ [.emit (.content s), .sleepSmall] }
  | .blockStart isToolUse id name =>
    if isToolUse then { st with current_block := some ⟨id, name, ""⟩ } else st
  | .blockDelta isInputJson pj =>
    if isInputJson then
      match st.current_block with
      | some c => { st with current_block := some { c with input := c.input ++ pj } }
      | none => st
    else st
  | .blockStop =>
    match st.current_block with
    | some c =>
      { st with
        tool_use_blocks := st.tool_use_blocks ++ [c]
        current_block := none }
    | none => st

def processAEvents (evs : List AEvent) : AAssembly :=
  evs.foldl processAEvent ⟨"", [], none, []⟩

/-- The `json.JSONDecodeError` raised by the unguarded
`json.loads(tool_use["input"])` in the assistant-content assembly.  Its
message (one of the fixed CPython decoder messages) contains none of the
keywords `classify_error` looks for, so it classifies as `"internal"`. -/
def jsonDecodeExc : PyExc :=
  ⟨"JSONDecodeError", "Expecting value: line 1 column 1 (char 0)"⟩

/-- Building the `tool_use` entries of the assistant message:
`"input": json.loads(tool_use["input"]) if tool_use["input"] else {}`.
The `json.loads` here is *not* wrapped in `try/except`, so non-empty input
that fails to parse raises. -/
def buildAssistantToolUses : List ABlock → Except PyExc (List AContent)
  | [] => .ok []
  | b :: rest =>
    let parsed : Except PyExc Json :=
      if b.input = "" then .ok (Json.obj [])
      else
        match Json.parse b.input with
        | some v => .ok v
        | none => .error jsonDecodeExc
    match parsed with
    | .error e => .error e
    | .ok v =>
      match buildAssistantToolUses rest with
      | .ok cs => .ok (.toolUse b.id b.name v :: cs)
      | .error e => .error e

/-- The per-block execution loop: for each finalized block, the code sets
`tool_args = tool_use.get("input", {})` — which is the *raw accumulated
string*, not the parsed object — emits the `tool_call` event with it, and
calls `execute_tool` on it; results are collected for the single
`tool_result` user message appended after the loop.  `execute_tool` with a
string `parameters` raises (pydantic validation, see `execute_tool`), which
aborts the loop after that block's `tool_call` event. -/
def execABlocks (registry : List (String × ToolHandler)) (ctx : ToolCtx) :
    List ABlock → List (Action AMsg) × List (String × Json) × Option PyExc
  | [] => ([], [], none)
  | b :: rest =>
    let tool_args : Json := Json.str b.input
    let ev : Action AMsg := .emit (.toolCall b.name tool_args)
    match execute_tool registry b.name tool_args ctx with
    | .error e => ([ev], [], some e)
    | .ok r =>
      let res := (b.id, if r.success then r.result else Json.obj [("error", optStrJson r.error_message)])
      let p := execABlocks registry ctx rest
      (ev :: p.1, res :: p.2.1, p.2.2)

/-- Oracle for one Anthropic streaming call, like `OProvider`. -/
def AProvider : Type := Nat → List AEvent × Option PyExc

/-- The `while iteration < max_iterations` loop of
`stream_anthropic_with_tools` as a trace of actions. -/
def anthropicGo (provider : AProvider) (registry : List (String × ToolHandler))
    (ctx : ToolCtx) : Nat → Nat → List (Action AMsg)
  | 0, _ => [.emit (.content capNote)]
  | fuel+1, iter =>
    let iteration := iter + 1
    let pr := provider iteration
    let st := processAEvents pr.1
    match pr.2 with
    | some e => st.actions ++ [.emit (.error e.msg (classify_error e))]
    | none =>
      if st.tool_use_blocks.isEmpty then st.actions
      else
        match buildAssistantToolUses st.tool_use_blocks with
        | .error e => st.actions ++ [.emit (.error e.msg (classify_error e))]
        | .ok toolUses =>
          let assistant_content :=
            (if st.content_buffer = "" then [] else [AContent.text st.content_buffer]) ++ toolUses
          let amsg : AMsg := .assistant assistant_content
          let p := execABlocks registry ctx st.tool_use_blocks
          match p.2.2 with
          | some e => st.actions ++ (.append amsg :: p.1) ++ [.emit (.error e.msg (classify_error e))]
          | none =>
            st.actions ++ (.append amsg :: p.1) ++ [.append (.toolResults p.2.1)]
              ++ anthropicGo provider registry ctx fuel iteration

/-- `stream_anthropic_with_tools`.  Tool-schema conversion and the
system-message split only shape the provider call, which the oracle
abstracts. -/
def stream_anthropic_with_tools (provider : AProvider)
    (registry : List (String × ToolHandler)) (ctx : ToolCtx)
    (max_iterations : Nat := 10) : List (Action AMsg) :=
  anthropicGo provider registry ctx max_iterations 0

/-! ### Legacy no-tools OpenAI stream (`stream_openai`) with retry/backoff -/

/-- Oracle for the legacy stream, indexed by the 0-based `attempt` counter:
the `chunk.choices[0].delta.content` values delivered, and the exception
(if any) raised after them. -/
def LegacyProvider : Type := Nat → List (Option String) × Option PyExc

def legacyChunkActions (chunks : List (Option String)) : List (Action Unit) :=
  chunks.flatMap fun c =>
    match truthyStr c with
    | some s => [.emit (.content s), .sleepSmall]
    | none => []

/-- `f"OpenAI failed after retries: {str(last_error)}"`. -/
def openaiFailMsg (last_error : Option PyExc) : String :=
  "OpenAI failed after retries: " ++ (match last_error with | some e => e.msg | none => "None")

/-- `classify_error(last_error) if last_error else "internal"`. -/
def legacyClassify : Option PyExc → String
  | some e => classify_error e
  | none => "internal"

/-- The `for attempt in range(LLM_MAX_RETRIES + 1)` loop of `stream_openai`:
on success the generator returns after forwarding the chunks; on failure it
sleeps `2 ** attempt` seconds and retries while attempts remain, and after
the last attempt emits one classified `error` event.  `fuel` is the number
of loop passes remaining. -/
def legacyGo (attempts : LegacyProvider) (max_retries : Nat) :
    Nat → Nat → Option PyExc → List (Action Unit)
  | 0, _, last => [.emit (.error (openaiFailMsg last) (legacyClassify last))]
  | fuel+1, attempt, _last =>
    let pr := attempts attempt
    let acts := legacyChunkActions pr.1
    match pr.2 with
    | none => acts
    | some e =>
      if attempt < max_retries then
        acts ++ [.wait (2 ^ attempt)] ++ legacyGo attempts max_retries fuel (attempt + 1) (some e)
      else
        acts ++ [.emit (.error (openaiFailMsg (some e)) (legacyClassify (some e)))]

/-- `stream_openai` (legacy, no tools); `max_retries` models the
`LLM_MAX_RETRIES` environment value, default 2. -/
def stream_openai (attempts : LegacyProvider) (max_retries : Nat := 2) :
    List (Action Unit) :=
  legacyGo attempts max_retries (max_retries + 1) 0 none

/-! ### `chat_endpoint` -/

structure ChatMessage where
  role : String
  content : String

/-- `ChatRequest` (the fields `chat_endpoint` reads; `stream` only matters
to the HTTP layer). -/
structure ChatRequestE where
  messages : List ChatMessage
  user_id : String
  session_id : Option String
  conversation_id : Option String

/-- Provider configuration read from the environment:
`AI_PROVIDER` (lower-cased, default `"openai"`) and which SDKs imported. -/
structure ChatConfig where
  ai_provider : String
  anthropic_available : Bool
  openai_available : Bool

def notConfiguredMsg : String :=
  "AI service not configured. Please set OPENAI_API_KEY or ANTHROPIC_API_KEY."

/-- The last `user` message of the request, scanned in reverse. -/
def lastUserMessage (msgs : List ChatMessage) : Option String :=
  match msgs.reverse.find? (fun m => m.role = "user") with
  | some m => some m.content
  | none => none

/-- `chat_endpoint` from `app/chat.py`, as the list of events it yields.

External collaborators are oracles: `safetyO` is `check_input_safety`
(safety filtering is outside the core), the providers as in the stream
functions.  The memory manager only contributes prompt text and a
post-stream write, neither of which yields events; the system prompt and
message-list construction feed the provider calls, which the oracles
abstract.  There is no RAG pre-fetch in `chat_endpoint`: the vector store
is only reachable through the `search_activities*` tools via `tool_context`. -/
def chat_endpoint (cfg : ChatConfig) (safetyO : String → Bool × String)
    (oProvider : OProvider) (aProvider : AProvider)
    (registry : List (String × ToolHandler)) (ctx : ToolCtx)
    (request : ChatRequestE) : List Event :=
  let conv_id := pyOrOpt request.conversation_id request.session_id
  let last_user := lastUserMessage request.messages
  let safety := safetyO (last_user.getD "")
  if ¬ safety.1 then
    [.error safety.2 "safety", .done conv_id]
  else
    let streamed :=
      if cfg.ai_provider = "anthropic" ∧ cfg.anthropic_available then
        eventsOf (stream_anthropic_with_tools aProvider registry ctx)
      else if cfg.openai_available then
        eventsOf (stream_openai_with_tools oProvider registry ctx)
      else
        [.content notConfiguredMsg]
    streamed ++ [.done conv_id]

/-! ## Helper definitions for the statements -/

/-- The actions one chunk contributes while streaming (truthy content is
forwarded, then paced). -/
def chunkEmits (chunk : OpenAIChunk) : List (Action OMsg) :=
  match truthyStr chunk.content with
  | some s => [.emit (.content s), .sleepSmall]
  | none => []

/-- The actions one Anthropic stream event contributes while streaming. -/
def aEventEmits (ev : AEvent) : List (Action AMsg) :=
  match ev with
  | .text s => if s = "" then [] else [.emit (.content s), .sleepSmall]
  | _ => []

/-- Number of emitted events satisfying `p` in an action trace. -/
def emitCount {μ : Type} (p : Event → Bool) (as : List (Action μ)) : Nat :=
  as.countP fun a => match a with | .emit e => p e | _ => false

/-- Number of `tool` role messages appended (OpenAI loop). -/
def toolMsgAppendCount (as : List (Action OMsg)) : Nat :=
  as.countP fun a => match a with | .append m => m.isToolMsg | _ => false

/-- Number of assistant messages appended (OpenAI loop) — one per round
that finalized tool calls. -/
def assistantAppendCount (as : List (Action OMsg)) : Nat :=
  as.countP fun a => match a with | .append m => m.isAssistantMsg | _ => false

/-- Number of individual `tool_result` blocks appended (Anthropic loop). -/
def toolResultAppendCount (as : List (Action AMsg)) : Nat :=
  (as.map fun a => match a with | .append m => m.toolResultCount | _ => 0).sum

def isObjB : Json → Bool
  | .obj _ => true
  | _ => false

/-- The five error kinds of the taxonomy. -/
def errorKinds : List String :=
  ["timeout", "auth", "network", "validation", "internal"]

/-! ## Concrete fixtures used by witnesses and counterexamples -/

def ctx0 : ToolCtx := ⟨"anonymous", none⟩

/-- A provider that opens one empty-argument tool call every round. -/
def providerAlwaysTool : OProvider :=
  fun _ => ([⟨none, [⟨some "call_1", ⟨some "t", some ""⟩⟩]⟩], none)

/-- A provider that raises a timeout on the first round (and would succeed
from the second round on). -/
def providerFailFirst : OProvider :=
  fun n =>
    if n = 1 then ([], some ⟨"APITimeoutError", "Request timed out"⟩)
    else ([⟨some "ok", []⟩], none)

/-- A handler that always raises `ValueError("boom")`. -/
def boomHandler : ToolHandler := fun _ _ => .error ⟨"ValueError", "boom"⟩

def boomRegistry : List (String × ToolHandler) := [("t", boomHandler)]

/-- Round 1 finalizes one call of tool `t` with empty argument text; later
rounds stream plain text only. -/
def providerToolThenText : OProvider :=
  fun n =>
    if n = 1 then ([⟨none, [⟨some "id1", ⟨some "t", some ""⟩⟩]⟩], none)
    else ([⟨some "Recovered fine.", []⟩], none)

/-- An Anthropic stream delivering one finalized tool-use block whose
accumulated argument text does not parse as JSON. -/
def aProviderBadJson : AProvider :=
  fun _ => ([.blockStart true "toolu_1" "search_activities",
             .blockDelta true (lbrace ++ "bad"), .blockStop], none)

/-- A vector store whose network calls always raise a connection error. -/
def failingStore : VectorStoreO :=
  ⟨fun _ => .error ⟨"ConnectionError", "connection refused"⟩,
   fun _ _ _ => .error ⟨"ConnectionError", "connection refused"⟩⟩

def ctxFailingStore : ToolCtx := ⟨"anonymous", some failingStore⟩

/-- A weather backend that always raises. -/
def downWeather : String → Option String → Except PyExc WeatherData :=
  fun _ _ => .error ⟨"ConnectionError", "weather api down"⟩

/-- Round 1 requests `search_activities({"query": "art"})`; later rounds
answer with text only. -/
def providerSearchThenText : OProvider :=
  fun n =>
    if n = 1 then
      ([⟨none, [⟨some "call_1",
        ⟨some "search_activities", some (lbrace ++ "\"query\": \"art\"" ++ rbrace)⟩⟩]⟩], none)
    else ([⟨some "No matches found.", []⟩], none)

/-- Legacy attempts oracle: attempts 0 and 1 raise, attempt 2 succeeds. -/
def attemptsFailFailOk : LegacyProvider :=
  fun a =>
    if a ≤ 1 then ([], some ⟨"APIConnectionError", "connection reset"⟩)
    else ([some "Hello"], none)

/-- Legacy attempts oracle: every attempt raises a timeout. -/
def attemptsAllFail : LegacyProvider :=
  fun _ => ([], some ⟨"APITimeoutError", "Request timed out"⟩)

def cfgOpenai : ChatConfig := ⟨"openai", false, true⟩

def safetyOk : String → Bool × String := fun _ => (true, "")

def aProviderEmpty : AProvider := fun _ => ([], none)

def reqC9 : ChatRequestE :=
  ⟨[⟨"user", "plan an art activity"⟩], "anonymous", some "sess1", none⟩

/-- Round 1 finalizes one call of tool `t` whose argument text does not
parse as JSON; later rounds stream plain text only. -/
def providerBadArgsThenText : OProvider :=
  fun n =>
    if n = 1 then ([⟨none, [⟨some "id1", ⟨some "t", some (lbrace ++ "oops")⟩⟩]⟩], none)
    else ([⟨some "done", []⟩], none)

/-- A chunk whose single delta opens tool call `id`/`name` with no argument
text yet. -/
def startChunk (id name : String) : OpenAIChunk :=
  ⟨none, [⟨some id, ⟨some name, none⟩⟩]⟩

/-- A chunk whose single delta carries one argument-text fragment for the
currently open call (no id, as the OpenAI wire elides it on continuations). -/
def fragChunk (f : String) : OpenAIChunk :=
  ⟨none, [⟨none, ⟨none, some f⟩⟩]⟩

/-- Concatenation of a fragment list in arrival order. -/
def strConcat : List String → String
  | [] => ""
  | s :: rest => s ++ strConcat rest

/-! ## Sanity checks for the JSON reader and string helpers -/

example : strContains "connectionerror" "connection" = true := by decide

example : strContains "timeouterror" "auth" = false := by decide

example : asciiLower "TimeoutError" = "timeouterror" := rfl

example : Json.parse (lbrace ++ "\"a\": 1" ++ rbrace)
    = some (Json.obj [("a", Json.num 1)]) := rfl

example : Json.parse (lbrace ++ "bad") = none := rfl

example : Json.parse "" = none := rfl

example : Json.parse "[1, -2, \"x\", true, null]"
    = some (Json.arr [.num 1, .num (-2), .str "x", .bool true, .null]) := rfl

example : Json.parse (lbrace ++ "\"a\": " ++ lbrace ++ "\"b\": []" ++ rbrace ++ ", \"c\": 2" ++ rbrace)
    = some (Json.obj [("a", Json.obj [("b", Json.arr [])]), ("c", Json.num 2)]) := rfl

/-! ## Basic lemmas about the streaming state machines -/

theorem emitCount_append {μ : Type} (p : Event → Bool) (a b : List (Action μ)) :
    emitCount p (a ++ b) = emitCount p a + emitCount p b :=
  List.countP_append _ _ _

theorem toolMsgAppendCount_append (a b : List (Action OMsg)) :
    toolMsgAppendCount (a ++ b) = toolMsgAppendCount a + toolMsgAppendCount b :=
  List.countP_append _ _ _

theorem assistantAppendCount_append (a b : List (Action OMsg)) :
    assistantAppendCount (a ++ b) = assistantAppendCount a + assistantAppendCount b :=
  List.countP_append _ _ _

theorem toolResultAppendCount_append (a b : List (Action AMsg)) :
    toolResultAppendCount (a ++ b) = toolResultAppendCount a + toolResultAppendCount b := by
  simp [toolResultAppendCount]

theorem eventsOf_append {μ : Type} (a b : List (Action μ)) :
    eventsOf (a ++ b) = eventsOf a ++ eventsOf b :=
  List.filterMap_append _ _ _

theorem waitsOf_append {μ : Type} (a b : List (Action μ)) :
    waitsOf (a ++ b) = waitsOf a ++ waitsOf b :=
  List.filterMap_append _ _ _

theorem processToolCallDelta_actions (st : OAssembly) (tc : ToolCallDelta) :
    (processToolCallDelta st tc).actions = st.actions := by
  unfold processToolCallDelta
  rcases truthyStr tc.id with _ | tid
  · rcases st.current_tool_call with _ | c
    · rfl
    · simp
  · rcases st.current_tool_call with _ | c <;> simp

theorem foldl_ptcd_actions (l : List ToolCallDelta) :
    ∀ st : OAssembly, (l.foldl processToolCallDelta st).actions = st.actions := by
  induction l with
  | nil => intro st; rfl
  | cons tc rest ih =>
    intro st
    simp only [List.foldl_cons, ih, processToolCallDelta_actions]

theorem processChunk_actions (st : OAssembly) (ch : OpenAIChunk) :
    (processChunk st ch).actions = st.actions ++ chunkEmits ch := by
  unfold processChunk chunkEmits
  rcases truthyStr ch.content with _ | s <;> simp [foldl_ptcd_actions]

theorem foldl_processChunk_actions (l : List OpenAIChunk) :
    ∀ st : OAssembly, (l.foldl processChunk st).actions = st.actions ++ l.flatMap chunkEmits := by
  induction l with
  | nil => intro st; simp
  | cons ch rest ih =>
    intro st
    simp [List.foldl_cons, ih, processChunk_actions]

theorem processChunks_actions (chunks : List OpenAIChunk) :
    (processChunks chunks).actions = chunks.flatMap chunkEmits := by
  simpa [processChunks, initOAssembly] using foldl_processChunk_actions chunks initOAssembly

theorem processAEvent_actions (st : AAssembly) (ev : AEvent) :
    (processAEvent st ev).actions = st.actions ++ aEventEmits ev := by
  unfold processAEvent aEventEmits
  cases ev with
  | text s => by_cases h : s = "" <;> simp [h]
  | blockStart isToolUse id name => cases isToolUse <;> simp
  | blockDelta isInputJson pj =>
    cases isInputJson <;> rcases st.current_block with _ | c <;> simp
  | blockStop => rcases st.current_block with _ | c <;> simp

theorem foldl_processAEvent_actions (l : List AEvent) :
    ∀ st : AAssembly, (l.foldl processAEvent st).actions = st.actions ++ l.flatMap aEventEmits := by
  induction l with
  | nil => intro st; simp
  | cons ev rest ih =>
    intro st
    simp [List.foldl_cons, ih, processAEvent_actions]

theorem processAEvents_actions (evs : List AEvent) :
    (processAEvents evs).actions = evs.flatMap aEventEmits := by
  simpa [processAEvents] using foldl_processAEvent_actions evs ⟨"", [], none, []⟩

/-- Streaming actions carry only `content` emits: any event predicate that
is false on `content` events counts zero over them. -/
theorem emitCount_chunkEmits (p : Event → Bool) (hp : ∀ s, p (.content s) = false)
    (l : List OpenAIChunk) : emitCount p (l.flatMap chunkEmits) = 0 := by
  induction l with
  | nil => rfl
  | cons ch rest ih =>
    rw [List.flatMap_cons, emitCount_append, ih]
    unfold chunkEmits
    rcases truthyStr ch.content with _ | s <;> simp [emitCount, hp]

theorem emitCount_aEventEmits (p : Event → Bool) (hp : ∀ s, p (.content s) = false)
    (l : List AEvent) : emitCount p (l.flatMap aEventEmits) = 0 := by
  induction l with
  | nil => rfl
  | cons ev rest ih =>
    rw [List.flatMap_cons, emitCount_append, ih]
    unfold aEventEmits
    cases ev with
    | text s => by_cases h : s = "" <;> simp [h, emitCount, hp]
    | blockStart a b c => simp [emitCount]
    | blockDelta a b => simp [emitCount]
    | blockStop => simp [emitCount]

theorem toolMsgAppendCount_chunkEmits (l : List OpenAIChunk) :
    toolMsgAppendCount (l.flatMap chunkEmits) = 0 := by
  induction l with
  | nil => rfl
  | cons ch rest ih =>
    rw [List.flatMap_cons, toolMsgAppendCount_append, ih]
    unfold chunkEmits
    rcases truthyStr ch.content with _ | s <;> simp [toolMsgAppendCount]

theorem assistantAppendCount_chunkEmits (l : List OpenAIChunk) :
    assistantAppendCount (l.flatMap chunkEmits) = 0 := by
  induction l with
  | nil => rfl
  | cons ch rest ih =>
    rw [List.flatMap_cons, assistantAppendCount_append, ih]
    unfold chunkEmits
    rcases truthyStr ch.content with _ | s <;> simp [assistantAppendCount]

theorem toolResultAppendCount_aEventEmits (l : List AEvent) :
    toolResultAppendCount (l.flatMap aEventEmits) = 0 := by
  induction l with
  | nil => rfl
  | cons ev rest ih =>
    rw [List.flatMap_cons, toolResultAppendCount_append, ih]
    unfold aEventEmits
    cases ev with
    | text s => by_cases h : s = "" <;> simp [h, toolResultAppendCount]
    | blockStart a b c => simp [toolResultAppendCount]
    | blockDelta a b => simp [toolResultAppendCount]
    | blockStop => simp [toolResultAppendCount]

theorem isObjB_iff (j : Json) : isObjB j = true ↔ ∃ fs, j = Json.obj fs := by
  cases j <;> simp [isObjB]

/-- With dictionary parameters, `execute_tool` never raises. -/
theorem execute_tool_obj (registry : List (String × ToolHandler)) (name : String)
    (fs : List (String × Json)) (ctx : ToolCtx) :
    ∃ r : ToolResult, execute_tool registry name (Json.obj fs) ctx = .ok r := by
  unfold execute_tool
  cases hl : lookupTool registry name with
  | none => exact ⟨_, rfl⟩
  | some handler =>
    cases hh : handler fs ctx with
    | ok r => exact ⟨⟨name, Json.obj fs, wrapToolReturn r, true, none⟩, by simp [hh]⟩
    | error e => exact ⟨⟨name, Json.obj fs, Json.obj [], false, some e.msg⟩, by simp [hh]⟩

/-- When every buffered call's decoded arguments form a dictionary, the
per-call execution loop of the OpenAI path raises nothing. -/
theorem execCalls_noExc (registry : List (String × ToolHandler)) (ctx : ToolCtx) :
    ∀ l : List ToolCallObj, (∀ c ∈ l, isObjB (toolArgsOf c.arguments) = true) →
      (execCalls registry ctx l).2 = none := by
  intro l
  induction l with
  | nil => intro _; rfl
  | cons c rest ih =>
    intro hall
    obtain ⟨fs, hfs⟩ := (isObjB_iff _).mp (hall c (by simp))
    obtain ⟨r, hr⟩ := execute_tool_obj registry c.name fs ctx
    have hrest := ih (fun d hd => hall d (by simp [hd]))
    unfold execCalls
    simp only [hfs, hr]
    simpa using hrest

theorem execCalls_emitCount (p : Event → Bool) (hp : ∀ n a, p (.toolCall n a) = false)
    (registry : List (String × ToolHandler)) (ctx : ToolCtx) :
    ∀ l : List ToolCallObj, emitCount p (execCalls registry ctx l).1 = 0 := by
  intro l
  induction l with
  | nil => rfl
  | cons c rest ih =>
    unfold execCalls
    cases he : execute_tool registry c.name (toolArgsOf c.arguments) ctx with
    | error e => simp [he, emitCount, hp]
    | ok r =>
      simp [he, emitCount, List.countP_cons, hp]
      simpa [emitCount] using ih

theorem execCalls_assistantAppendCount (registry : List (String × ToolHandler)) (ctx : ToolCtx) :
    ∀ l : List ToolCallObj, assistantAppendCount (execCalls registry ctx l).1 = 0 := by
  intro l
  induction l with
  | nil => rfl
  | cons c rest ih =>
    unfold execCalls
    cases he : execute_tool registry c.name (toolArgsOf c.arguments) ctx with
    | error e => simp [he, assistantAppendCount, OMsg.isAssistantMsg]
    | ok r =>
      simp [he, assistantAppendCount, List.countP_cons, OMsg.isAssistantMsg]
      simpa [assistantAppendCount] using ih

theorem execABlocks_emitCount (p : Event → Bool) (hp : ∀ n a, p (.toolCall n a) = false)
    (registry : List (String × ToolHandler)) (ctx : ToolCtx) :
    ∀ l : List ABlock, emitCount p (execABlocks registry ctx l).1 = 0 := by
  intro l
  induction l with
  | nil => rfl
  | cons b rest ih =>
    unfold execABlocks
    cases he : execute_tool registry b.name (Json.str b.input) ctx with
    | error e => simp [he, emitCount, hp]
    | ok r =>
      simp [he, emitCount, List.countP_cons, hp]
      simpa [emitCount] using ih

/-- The Anthropic execution loop appends nothing itself (the single
`tool_result` message is appended after it). -/
theorem execABlocks_toolResultAppendCount (registry : List (String × ToolHandler)) (ctx : ToolCtx) :
    ∀ l : List ABlock, toolResultAppendCount (execABlocks registry ctx l).1 = 0 := by
  intro l
  induction l with
  | nil => rfl
  | cons b rest ih =>
    unfold execABlocks
    cases he : execute_tool registry b.name (Json.str b.input) ctx with
    | error e => simp [he, toolResultAppendCount, AMsg.toolResultCount]
    | ok r =>
      simp [he, toolResultAppendCount, AMsg.toolResultCount]
      simpa [toolResultAppendCount] using ih

/-! ## C7 — unknown tool name -/

/-- C7 counterexample: at the concrete input `tool_name = "foo"` (with the
empty registry and empty argument dictionary) `execute_tool` reports
`"Unknown tool: foo"`, capitalized — not the claimed exact string
`"unknown tool: foo"`. -/
theorem C7_counterexample :
    (execute_tool [] "foo" (Json.obj []) ⟨"anonymous", none⟩).map ToolResult.error_message
      = .ok (some "Unknown tool: foo")
    ∧ ("Unknown tool: foo" : String) ≠ "unknown tool: foo" :=
  ⟨rfl, by decide⟩

/-- C7 (amended): for every tool name not present in the registry and every
argument dictionary, `execute_tool` returns
`ToolResult(success=False, error_message="Unknown tool: <name>")` (with a
capital `U`) and never raises. -/
theorem C7_unknown_tool (registry : List (String × ToolHandler)) (tool_name : String)
    (fs : List (String × Json)) (ctx : ToolCtx)
    (h : lookupTool registry tool_name = none) :
    execute_tool registry tool_name (Json.obj fs) ctx =
      .ok ⟨tool_name, Json.obj fs, Json.obj [], false, some ("Unknown tool: " ++ tool_name)⟩ := by
  unfold execute_tool
  rw [h]

/-- C7 witness: the amended statement evaluated at `"foo"`. -/
theorem C7_witness :
    execute_tool [] "foo" (Json.obj []) ⟨"anonymous", none⟩ =
      .ok ⟨"foo", Json.obj [], Json.obj [], false, some ("Unknown tool: " ++ "foo")⟩ :=
  C7_unknown_tool [] "foo" [] ⟨"anonymous", none⟩ rfl

/-! ## C10 — the weather tool's fallback branch is dead -/

/-- C10: whenever the weather backend `check_weather` raises, executing the
`check_weather` tool through `execute_tool` yields
`ToolResult(success=False)` with the `UnboundLocalError` message and an
empty `result`: the fallback weather dictionary built in the handler's
`except` branch is never returned as a successful result, because the
handler then reads the unbound local `weather`. -/
theorem C10_weather_fallback_dead
    (weatherO : String → Option String → Except PyExc WeatherData)
    (kwargs : List (String × Json)) (ctx : ToolCtx) (e : PyExc)
    (h : weatherO (pyOrStr (lookupStrKw kwargs "location") "Lansing, MI")
          (lookupStrKw kwargs "date") = .error e) :
    execute_tool (builtinTools weatherO) "check_weather" (Json.obj kwargs) ctx =
      .ok ⟨"check_weather", Json.obj kwargs, Json.obj [], false, some unboundLocalExc.msg⟩ := by
  have hl : lookupTool (builtinTools weatherO) "check_weather"
      = some (check_weather_tool weatherO) := rfl
  have hh : check_weather_tool weatherO kwargs ctx = .error unboundLocalExc := by
    unfold check_weather_tool
    simp only [h]
  unfold execute_tool
  simp only [hl, hh]

/-- C10 witness: a concrete raising weather backend. -/
theorem C10_witness :
    execute_tool (builtinTools fun _ _ => .error ⟨"ConnectionError", "weather api down"⟩)
      "check_weather" (Json.obj []) ⟨"anonymous", none⟩ =
      .ok ⟨"check_weather", Json.obj [], Json.obj [], false, some unboundLocalExc.msg⟩ :=
  C10_weather_fallback_dead (fun _ _ => .error ⟨"ConnectionError", "weather api down"⟩)
    [] ⟨"anonymous", none⟩ ⟨"ConnectionError", "weather api down"⟩ rfl

/-! ## Loop-level counting lemmas -/

theorem eventsOf_countP {μ : Type} (p : Event → Bool) (as : List (Action μ)) :
    (eventsOf as).countP p = emitCount p as := by
  induction as with
  | nil => rfl
  | cons a rest ih =>
    cases a <;> simp [eventsOf, emitCount, List.countP_cons] <;>
      simpa [eventsOf, emitCount] using ih

theorem emitCount_nil {μ : Type} (p : Event → Bool) :
    emitCount p ([] : List (Action μ)) = 0 := rfl

theorem emitCount_cons_append {μ : Type} (p : Event → Bool) (m : μ) (l : List (Action μ)) :
    emitCount p (.append m :: l) = emitCount p l := by
  simp [emitCount, List.countP_cons]

theorem emitCount_cons_emit {μ : Type} (p : Event → Bool) (e : Event) (l : List (Action μ)) :
    emitCount p (.emit e :: l) = emitCount p l + (if p e then 1 else 0) := by
  simp [emitCount, List.countP_cons]

/-- Any event predicate false on `content`, `tool_call` and `error` events
(in particular: "is a `done` event") counts zero over a full run of the
OpenAI tool loop: the loop never emits such an event. -/
theorem openaiGo_emitCount_zero (p : Event → Bool)
    (hContent : ∀ s, p (.content s) = false)
    (hTool : ∀ n a, p (.toolCall n a) = false)
    (hErr : ∀ m t, p (.error m t) = false)
    (provider : OProvider) (registry : List (String × ToolHandler)) (ctx : ToolCtx) :
    ∀ fuel iter, emitCount p (openaiGo provider registry ctx fuel iter) = 0 := by
  intro fuel
  induction fuel with
  | zero => intro iter; simp [openaiGo, emitCount, hContent]
  | succ fuel ih =>
    intro iter
    rw [openaiGo]
    cases hpr : provider (iter + 1) with
    | mk chunks exc =>
      have hst : emitCount p (processChunks chunks).actions = 0 := by
        rw [processChunks_actions]
        exact emitCount_chunkEmits p hContent chunks
      have hexec := execCalls_emitCount p hTool registry ctx
        (finalizeBuffer (processChunks chunks))
      cases exc with
      | some e =>
        simp only [emitCount_append, emitCount_cons_emit, emitCount_nil, hst, hErr]
        simp
      | none =>
        by_cases hbuf : (finalizeBuffer (processChunks chunks)).isEmpty
        · simp only [hbuf, if_true]
          exact hst
        · simp only [hbuf, Bool.false_eq_true, if_false]
          cases hexc : (execCalls registry ctx (finalizeBuffer (processChunks chunks))).2 with
          | some e =>
            simp only [hexc, emitCount_append, emitCount_cons_append, emitCount_cons_emit,
              emitCount_nil, hst, hexec, hErr]
            simp
          | none =>
            simp only [hexc, emitCount_append, emitCount_cons_append, emitCount_cons_emit,
              emitCount_nil, hst, hexec, ih (iter + 1)]

/-- The same for the Anthropic tool loop. -/
theorem anthropicGo_emitCount_zero (p : Event → Bool)
    (hContent : ∀ s, p (.content s) = false)
    (hTool : ∀ n a, p (.toolCall n a) = false)
    (hErr : ∀ m t, p (.error m t) = false)
    (provider : AProvider) (registry : List (String × ToolHandler)) (ctx : ToolCtx) :
    ∀ fuel iter, emitCount p (anthropicGo provider registry ctx fuel iter) = 0 := by
  intro fuel
  induction fuel with
  | zero => intro iter; simp [anthropicGo, emitCount, hContent]
  | succ fuel ih =>
    intro iter
    rw [anthropicGo]
    cases hpr : provider (iter + 1) with
    | mk evs exc =>
      have hst : emitCount p (processAEvents evs).actions = 0 := by
        rw [processAEvents_actions]
        exact emitCount_aEventEmits p hContent evs
      have hexec := execABlocks_emitCount p hTool registry ctx
        (processAEvents evs).tool_use_blocks
      cases exc with
      | some e =>
        simp only [emitCount_append, emitCount_cons_emit, emitCount_nil, hst, hErr]
        simp
      | none =>
        by_cases hbuf : (processAEvents evs).tool_use_blocks.isEmpty
        · simp only [hbuf, if_true]
          exact hst
        · simp only [hbuf, Bool.false_eq_true, if_false]
          cases hbc : buildAssistantToolUses (processAEvents evs).tool_use_blocks with
          | error e =>
            simp only [hbc, emitCount_append, emitCount_cons_emit, emitCount_nil, hst, hErr]
            simp
          | ok toolUses =>
            cases hexc : (execABlocks registry ctx (processAEvents evs).tool_use_blocks).2.2 with
            | some e =>
              simp only [hbc, hexc, emitCount_append, emitCount_cons_append, emitCount_cons_emit,
                emitCount_nil, hst, hexec, hErr]
              simp
            | none =>
              simp only [hbc, hexc, emitCount_append, emitCount_cons_append, emitCount_cons_emit,
                emitCount_nil, hst, hexec, ih (iter + 1)]

/-! ## C1 — exactly one `done` event, always last -/

/-- C1: for every invocation of `chat_endpoint` — every configuration,
safety outcome, provider behaviour (success, failure, endless tool calls)
and request — the emitted event stream contains exactly one `done` event
and it is the last event. -/
theorem C1_done_terminal (cfg : ChatConfig) (safetyO : String → Bool × String)
    (oP : OProvider) (aP : AProvider) (registry : List (String × ToolHandler))
    (ctx : ToolCtx) (request : ChatRequestE) :
    (chat_endpoint cfg safetyO oP aP registry ctx request).countP Event.isDone = 1
    ∧ (chat_endpoint cfg safetyO oP aP registry ctx request).getLast?
        = some (.done (pyOrOpt request.conversation_id request.session_id)) := by
  unfold chat_endpoint
  by_cases hs : (safetyO ((lastUserMessage request.messages).getD "")).1
  · simp only [hs]
    by_cases ha : cfg.ai_provider = "anthropic" ∧ cfg.anthropic_available
    · constructor
      · simp [ha, List.countP_append, List.countP_cons, Event.isDone, eventsOf_countP,
          stream_anthropic_with_tools,
          anthropicGo_emitCount_zero Event.isDone (fun _ => rfl) (fun _ _ => rfl) (fun _ _ => rfl)]
      · simp [ha]
    · by_cases ho : cfg.openai_available
      · constructor
        · simp [ha, ho, List.countP_append, List.countP_cons, Event.isDone, eventsOf_countP,
            stream_openai_with_tools,
            openaiGo_emitCount_zero Event.isDone (fun _ => rfl) (fun _ _ => rfl) (fun _ _ => rfl)]
        · simp [ha, ho]
      · constructor
        · simp [ha, ho, List.countP_append, List.countP_cons, Event.isDone]
        · simp [ha, ho]
  · simp [hs, List.countP_cons, Event.isDone]

/-! ## C4 — the iteration cap -/

theorem assistantAppendCount_cons_append (m : OMsg) (l : List (Action OMsg)) :
    assistantAppendCount (.append m :: l)
      = assistantAppendCount l + (if m.isAssistantMsg then 1 else 0) := by
  simp [assistantAppendCount, List.countP_cons]

theorem assistantAppendCount_execCalls_segment (registry : List (String × ToolHandler))
    (ctx : ToolCtx) (l : List ToolCallObj) (cont : Option String) (buf : List ToolCallObj)
    (rest : List (Action OMsg)) :
    assistantAppendCount ((.append (.assistant cont buf) :: (execCalls registry ctx l).1) ++ rest)
      = assistantAppendCount rest + 1 := by
  rw [assistantAppendCount_append, assistantAppendCount_cons_append,
    execCalls_assistantAppendCount]
  simp [OMsg.isAssistantMsg, Nat.add_comm]

/-- Generalized induction for the capped loop: when every remaining round
completes without a provider exception, finalizes at least one tool call,
and every finalized call's decoded arguments form a dictionary, the loop
performs exactly `fuel` further rounds (one assistant message appended per
round), emits no `error` event, and its trace ends with the cap-note
`content` event. -/
theorem openaiGo_capped (provider : OProvider) (registry : List (String × ToolHandler))
    (ctx : ToolCtx) :
    ∀ fuel iter,
      (∀ n, iter < n → n ≤ iter + fuel →
        (provider n).2 = none
        ∧ (finalizeBuffer (processChunks (provider n).1)).isEmpty = false
        ∧ ∀ c ∈ finalizeBuffer (processChunks (provider n).1),
            isObjB (toolArgsOf c.arguments) = true) →
      emitCount Event.isError (openaiGo provider registry ctx fuel iter) = 0
      ∧ assistantAppendCount (openaiGo provider registry ctx fuel iter) = fuel
      ∧ ∃ pre, openaiGo provider registry ctx fuel iter = pre ++ [.emit (.content capNote)] := by
  intro fuel
  induction fuel with
  | zero =>
    intro iter _
    exact ⟨rfl, rfl, ⟨[], rfl⟩⟩
  | succ fuel ih =>
    intro iter h
    obtain ⟨h1, h2, h3⟩ := h (iter + 1) (by omega) (by omega)
    obtain ⟨ihErr, ihCnt, pre, ihPre⟩ := ih (iter + 1) (fun n hn1 hn2 => h n (by omega) (by omega))
    have hexcn := execCalls_noExc registry ctx _ h3
    have hstErr : emitCount Event.isError (processChunks (provider (iter + 1)).1).actions = 0 := by
      rw [processChunks_actions]
      exact emitCount_chunkEmits Event.isError (fun _ => rfl) _
    have hstAsst : assistantAppendCount (processChunks (provider (iter + 1)).1).actions = 0 := by
      rw [processChunks_actions]
      exact assistantAppendCount_chunkEmits _
    rw [openaiGo]
    simp only [h1, h2, Bool.false_eq_true, if_false, hexcn]
    refine ⟨?_, ?_, ?_⟩
    · rw [emitCount_append, emitCount_append, hstErr, emitCount_cons_append,
        execCalls_emitCount Event.isError (fun _ _ => rfl) registry ctx, ihErr]
    · rw [assistantAppendCount_append, assistantAppendCount_append, hstAsst,
        assistantAppendCount_cons_append, execCalls_assistantAppendCount, ihCnt]
      simp [OMsg.isAssistantMsg, Nat.add_comm]
    · refine ⟨(processChunks (provider (iter + 1)).1).actions
        ++ (.append (.assistant (truthyStr (some (processChunks (provider (iter + 1)).1).content_buffer))
              (finalizeBuffer (processChunks (provider (iter + 1)).1)))
            :: (execCalls registry ctx (finalizeBuffer (processChunks (provider (iter + 1)).1))).1)
        ++ pre, ?_⟩
      rw [ihPre]
      simp [List.append_assoc]

/-- C4: if every provider round finalizes at least one tool call (with
dictionary arguments, the situation of a tool handler that always triggers
another tool call), `stream_openai_with_tools` with the default
`max_iterations = 10` stops after exactly 10 rounds (10 assistant messages
appended), emits the informational cap-note `content` event as its last
action, and emits no `error` event. -/
theorem C4_iteration_cap (provider : OProvider) (registry : List (String × ToolHandler))
    (ctx : ToolCtx)
    (h : ∀ n, 1 ≤ n → n ≤ 10 →
      (provider n).2 = none
      ∧ (finalizeBuffer (processChunks (provider n).1)).isEmpty = false
      ∧ ∀ c ∈ finalizeBuffer (processChunks (provider n).1),
          isObjB (toolArgsOf c.arguments) = true) :
    emitCount Event.isError (stream_openai_with_tools provider registry ctx) = 0
    ∧ assistantAppendCount (stream_openai_with_tools provider registry ctx) = 10
    ∧ ∃ pre, stream_openai_with_tools provider registry ctx
        = pre ++ [.emit (.content capNote)] := by
  have := openaiGo_capped provider registry ctx 10 0 (fun n h1 h2 => h n h1 (by omega))
  simpa [stream_openai_with_tools] using this

/-- C4 witness: the constant provider that opens one tool call per round. -/
theorem C4_witness :
    emitCount Event.isError (stream_openai_with_tools providerAlwaysTool [] ctx0) = 0
    ∧ assistantAppendCount (stream_openai_with_tools providerAlwaysTool [] ctx0) = 10
    ∧ ∃ pre, stream_openai_with_tools providerAlwaysTool [] ctx0
        = pre ++ [.emit (.content capNote)] :=
  C4_iteration_cap providerAlwaysTool [] ctx0 (by
    intro n h1 h2
    refine ⟨rfl, rfl, ?_⟩
    show ∀ c ∈ finalizeBuffer (processChunks [⟨none, [⟨some "call_1", ⟨some "t", some ""⟩⟩]⟩]),
      isObjB (toolArgsOf c.arguments) = true
    decide)

/-! ## C5 — tool-call assembly -/

/-- Folding argument-fragment chunks into an open accumulator concatenates
the fragments in arrival order and touches nothing else. -/
theorem foldl_fragChunks (frags : List String) :
    ∀ (st : OAssembly) (c : ToolCallObj), st.current_tool_call = some c →
      (frags.map fragChunk).foldl processChunk st
        = { st with current_tool_call := some ({ c with arguments := c.arguments ++ strConcat frags }) } := by
  induction frags with
  | nil =>
    intro st c hc
    cases st with
    | mk cb buf cur acts =>
      simp only [List.map_nil, List.foldl_nil, strConcat]
      simp at hc
      simp [hc]
  | cons f rest ih =>
    intro st c hc
    have hstep : processChunk st (fragChunk f)
        = { st with current_tool_call := some ({ c with arguments := c.arguments ++ f }) } := by
      unfold processChunk fragChunk processToolCallDelta
      simp only [truthyStr]
      by_cases hf : f = ""
      · simp [hf, hc]
      · simp [hf, hc]
    rw [List.map_cons, List.foldl_cons, hstep,
      ih _ { c with arguments := c.arguments ++ f } rfl]
    simp [strConcat, String.append_assoc]

/-- C5: (a) argument fragments for one call id are concatenated in arrival
order — a stream opening a call and then delivering fragments assembles
their concatenation, and the claim's concrete fragments parse to
`{"a": 1}`; (b) a delta carrying a different id finalizes the open
accumulator (pushes it onto `tool_calls_buffer`) before opening the new
one; (c) the open accumulator is finalized when the stream ends, so no
finalized call's argument text is dropped. -/
theorem C5_assembly (id name : String) (hid : id ≠ "") (frags : List String)
    (st : OAssembly) (c : ToolCallObj) (tid : String) (hnew : tid ≠ "")
    (hdiff : c.id ≠ tid) (hcur : st.current_tool_call = some c) (nm ar : Option String) :
    (finalizeBuffer (processChunks (startChunk id name :: frags.map fragChunk))
        = [⟨id, name, strConcat frags⟩])
    ∧ Json.parse (strConcat [lbrace ++ "\"a\":", "1" ++ rbrace])
        = some (Json.obj [("a", Json.num 1)])
    ∧ ((processToolCallDelta st ⟨some tid, ⟨nm, ar⟩⟩).tool_calls_buffer
          = st.tool_calls_buffer ++ [c]
        ∧ (processToolCallDelta st ⟨some tid, ⟨nm, ar⟩⟩).current_tool_call
          = some ⟨tid, nm.getD "", ar.getD ""⟩)
    ∧ finalizeBuffer st = st.tool_calls_buffer ++ [c] := by
  refine ⟨?_, rfl, ⟨?_, ?_⟩, ?_⟩
  · have hstart : processChunk initOAssembly (startChunk id name)
        = { initOAssembly with current_tool_call := some ⟨id, name, ""⟩ } := by
      unfold processChunk startChunk processToolCallDelta initOAssembly
      simp [truthyStr, hid]
    rw [processChunks, List.foldl_cons, hstart,
      foldl_fragChunks frags _ ⟨id, name, ""⟩ rfl]
    simp [finalizeBuffer, initOAssembly]
  · unfold processToolCallDelta
    simp [truthyStr, hnew, hcur, hdiff]
  · unfold processToolCallDelta
    simp [truthyStr, hnew, hcur, hdiff]
  · unfold finalizeBuffer
    rw [hcur]

/-- C5 witness: the claim's concrete fragments `["{\"a\":", "1}"]` and a
concrete open accumulator displaced by a new id. -/
theorem C5_witness :
    finalizeBuffer (processChunks (startChunk "call_1" "f"
        :: [lbrace ++ "\"a\":", "1" ++ rbrace].map fragChunk))
      = [⟨"call_1", "f", strConcat [lbrace ++ "\"a\":", "1" ++ rbrace]⟩] :=
  (C5_assembly "call_1" "f" (by decide) [lbrace ++ "\"a\":", "1" ++ rbrace]
    ⟨"", [], some ⟨"call_1", "f", ""⟩, []⟩ ⟨"call_1", "f", ""⟩ "call_2" (by decide)
    (by decide) rfl none none).1

/-! ## C2 — malformed tool-call argument text -/

/-- When every buffered call's argument text fails to parse, the OpenAI
execution loop emits exactly one `tool_call` event per call, each carrying
the empty object `{}`. -/
theorem execCalls_events_unparsed (registry : List (String × ToolHandler)) (ctx : ToolCtx) :
    ∀ calls : List ToolCallObj, (∀ c ∈ calls, Json.parse c.arguments = none) →
      eventsOf (execCalls registry ctx calls).1
        = calls.map fun c => Event.toolCall c.name (Json.obj []) := by
  intro calls
  induction calls with
  | nil => intro _; rfl
  | cons c rest ih =>
    intro h
    have hc : toolArgsOf c.arguments = Json.obj [] := by
      simp [toolArgsOf, h c (by simp)]
    obtain ⟨r, hr⟩ := execute_tool_obj registry c.name [] ctx
    unfold execCalls
    simp only [hc, hr]
    simp only [eventsOf, List.filterMap_cons, List.map_cons]
    simpa [eventsOf] using ih (fun d hd => h d (by simp [hd]))

/-- C2 (amended): in the OpenAI path, a finalized tool call whose
accumulated argument text does not parse as JSON results in `{}` being
passed to tool execution, the `tool_call` events carry `{}`, the execution
loop raises nothing, and a full turn whose round finalizes only such calls
completes with no `error` event.  In the Anthropic path the claim fails:
non-empty unparseable argument text raises `json.JSONDecodeError` during
assistant-content assembly, which the round's `except` turns into a fatal
`"internal"` error event — and even when parsing succeeds, tool execution
receives the raw argument string, not a parsed object. -/
theorem C2_malformed_args
    (s : String) (hs : Json.parse s = none)
    (registry : List (String × ToolHandler)) (ctx : ToolCtx) (calls : List ToolCallObj)
    (hcalls : ∀ c ∈ calls, Json.parse c.arguments = none)
    (provider : OProvider)
    (h1 : (provider 1).2 = none)
    (h1c : ∀ c ∈ finalizeBuffer (processChunks (provider 1).1), Json.parse c.arguments = none)
    (h2 : (provider 2).2 = none)
    (h2b : finalizeBuffer (processChunks (provider 2).1) = [])
    (b : ABlock) (rest : List ABlock) (hb1 : b.input ≠ "") (hb2 : Json.parse b.input = none) :
    toolArgsOf s = Json.obj []
    ∧ (execCalls registry ctx calls).2 = none
    ∧ eventsOf (execCalls registry ctx calls).1
        = calls.map (fun c => Event.toolCall c.name (Json.obj []))
    ∧ emitCount Event.isError (stream_openai_with_tools provider registry ctx) = 0
    ∧ buildAssistantToolUses (b :: rest) = .error jsonDecodeExc
    ∧ classify_error jsonDecodeExc = "internal"
    ∧ ∃ tail, (execABlocks registry ctx (b :: rest)).1
        = .emit (.toolCall b.name (Json.str b.input)) :: tail := by
  have hA : ∀ t : String, Json.parse t = none → toolArgsOf t = Json.obj [] := by
    intro t ht
    simp [toolArgsOf, ht]
  have hobj1 : ∀ c ∈ finalizeBuffer (processChunks (provider 1).1),
      isObjB (toolArgsOf c.arguments) = true := by
    intro c hc
    rw [hA _ (h1c c hc)]
    rfl
  refine ⟨hA s hs, ?_, ?_, ?_, ?_, rfl, ?_⟩
  · exact execCalls_noExc registry ctx calls (fun c hc => by rw [hA _ (hcalls c hc)]; rfl)
  · exact execCalls_events_unparsed registry ctx calls hcalls
  · have hst1 : emitCount Event.isError (processChunks (provider 1).1).actions = 0 := by
      rw [processChunks_actions]
      exact emitCount_chunkEmits Event.isError (fun _ => rfl) _
    have hst2 : emitCount Event.isError (processChunks (provider 2).1).actions = 0 := by
      rw [processChunks_actions]
      exact emitCount_chunkEmits Event.isError (fun _ => rfl) _
    rw [stream_openai_with_tools, show (10 : Nat) = 9 + 1 from rfl, openaiGo]
    simp only [h1]
    by_cases hbuf : (finalizeBuffer (processChunks (provider 1).1)).isEmpty
    · simp only [hbuf, if_true]
      exact hst1
    · simp only [hbuf, Bool.false_eq_true, if_false,
        execCalls_noExc registry ctx _ hobj1]
      rw [show (9 : Nat) = 8 + 1 from rfl, openaiGo]
      simp only [h2, h2b, List.isEmpty_nil, if_true]
      rw [emitCount_append, emitCount_append, hst1, emitCount_cons_append,
        execCalls_emitCount Event.isError (fun _ _ => rfl) registry ctx, hst2]
  · unfold buildAssistantToolUses
    simp [hb1, hb2]
  · cases he : execute_tool registry b.name (Json.str b.input) ctx with
    | error e => exact ⟨[], by simp [execABlocks, he]⟩
    | ok r => exact ⟨(execABlocks registry ctx rest).1, by simp [execABlocks, he]⟩

/-- C2 counterexample: in the Anthropic path a finalized tool-use block
with non-empty unparseable argument text makes the turn end with one fatal
`internal` error event — tool execution is never reached and never sees
`{}`, contradicting the claim for the Anthropic streaming path. -/
theorem C2_counterexample :
    eventsOf (stream_anthropic_with_tools aProviderBadJson [] ctx0)
      = [.error "Expecting value: line 1 column 1 (char 0)" "internal"] := rfl

/-- C2 witness: the amended statement at concrete unparseable inputs. -/
theorem C2_witness :
    toolArgsOf (lbrace ++ "bad") = Json.obj [] :=
  (C2_malformed_args (lbrace ++ "bad") rfl [] ctx0
    [⟨"id1", "t", lbrace ++ "oops"⟩]
    (by
      intro c hc
      cases hc with
      | head => rfl
      | tail _ h => cases h)
    providerBadArgsThenText rfl
    (by
      show ∀ c ∈ finalizeBuffer (processChunks
        [⟨none, [⟨some "id1", ⟨some "t", some (lbrace ++ "oops")⟩⟩]⟩]),
        Json.parse c.arguments = none
      intro c hc
      cases hc with
      | head => rfl
      | tail _ h => cases h)
    rfl rfl
    ⟨"toolu_1", "search_activities", lbrace ++ "bad"⟩ [] (by decide) rfl).1

/-! ## C3 — retry with exponential backoff -/

theorem emitCount_legacyChunkActions (p : Event → Bool) (hp : ∀ s, p (.content s) = false)
    (l : List (Option String)) : emitCount p (legacyChunkActions l) = 0 := by
  induction l with
  | nil => rfl
  | cons c rest ih =>
    rw [legacyChunkActions, List.flatMap_cons, emitCount_append]
    rw [legacyChunkActions] at ih
    rw [ih]
    rcases c with _ | s
    · rfl
    · by_cases hcs : s = "" <;> simp [truthyStr, hcs, emitCount, hp]

theorem waitsOf_legacyChunkActions (l : List (Option String)) :
    waitsOf (legacyChunkActions l) = [] := by
  induction l with
  | nil => rfl
  | cons c rest ih =>
    rw [legacyChunkActions, List.flatMap_cons, waitsOf_append]
    rw [legacyChunkActions] at ih
    rw [ih]
    rcases c with _ | s
    · rfl
    · by_cases hcs : s = "" <;> simp [truthyStr, hcs, waitsOf]

/-- `classify_error` always yields one of the five kinds of the taxonomy. -/
theorem classify_error_mem (e : PyExc) : classify_error e ∈ errorKinds := by
  unfold classify_error errorKinds
  split_ifs <;> simp

/-- C3 (amended): the retry/backoff behaviour belongs to the legacy
no-tools stream `stream_openai`: with `max_retries = 2`, a call failing
twice then succeeding yields no `error` event with backoff waits of
`2^0 = 1` and `2^1 = 2` seconds between attempts, and a call failing on all
three attempts yields exactly one `error` event classified (from the last
exception) into one of {timeout, auth, network, validation, internal}.
The tool-calling loop (`stream_openai_with_tools`) itself performs no
retry: a provider-call exception immediately yields exactly one classified
`error` event and ends the turn (SDK-internal retries happen outside this
code). -/
theorem C3_retry_backoff
    (att1 att2 : LegacyProvider) (e0 e1 f0 f1 f2 : PyExc)
    (l0 l1 l2 m0 m1 m2 : List (Option String))
    (ha0 : att1 0 = (l0, some e0)) (ha1 : att1 1 = (l1, some e1))
    (ha2 : att1 2 = (l2, none))
    (hb0 : att2 0 = (m0, some f0)) (hb1 : att2 1 = (m1, some f1))
    (hb2 : att2 2 = (m2, some f2))
    (provider : OProvider) (registry : List (String × ToolHandler)) (ctx : ToolCtx)
    (e : PyExc) (chunks : List OpenAIChunk)
    (hp : provider 1 = (chunks, some e)) :
    (stream_openai att1 = legacyChunkActions l0 ++ [.wait 1]
        ++ legacyChunkActions l1 ++ [.wait 2] ++ legacyChunkActions l2
      ∧ emitCount Event.isError (stream_openai att1) = 0
      ∧ waitsOf (stream_openai att1) = [1, 2])
    ∧ (stream_openai att2 = legacyChunkActions m0 ++ [.wait 1]
        ++ legacyChunkActions m1 ++ [.wait 2] ++ legacyChunkActions m2
        ++ [.emit (.error (openaiFailMsg (some f2)) (classify_error f2))]
      ∧ emitCount Event.isError (stream_openai att2) = 1
      ∧ classify_error f2 ∈ errorKinds)
    ∧ (stream_openai_with_tools provider registry ctx
        = (processChunks chunks).actions ++ [.emit (.error e.msg (classify_error e))]
      ∧ emitCount Event.isError (stream_openai_with_tools provider registry ctx) = 1
      ∧ classify_error e ∈ errorKinds) := by
  have htr1 : stream_openai att1 = legacyChunkActions l0 ++ [.wait 1]
      ++ legacyChunkActions l1 ++ [.wait 2] ++ legacyChunkActions l2 := by
    simp [stream_openai, legacyGo, ha0, ha1, ha2]
  have htr2 : stream_openai att2 = legacyChunkActions m0 ++ [.wait 1]
      ++ legacyChunkActions m1 ++ [.wait 2] ++ legacyChunkActions m2
      ++ [.emit (.error (openaiFailMsg (some f2)) (classify_error f2))] := by
    simp [stream_openai, legacyGo, legacyClassify, hb0, hb1, hb2]
  have htr3 : stream_openai_with_tools provider registry ctx
      = (processChunks chunks).actions ++ [.emit (.error e.msg (classify_error e))] := by
    rw [stream_openai_with_tools, openaiGo]
    simp only [hp]
  refine ⟨⟨htr1, ?_, ?_⟩, ⟨htr2, ?_, classify_error_mem f2⟩, ⟨htr3, ?_, classify_error_mem e⟩⟩
  · rw [htr1]
    simp only [emitCount_append, emitCount_legacyChunkActions Event.isError (fun _ => rfl)]
    rfl
  · rw [htr1]
    simp only [waitsOf_append, waitsOf_legacyChunkActions]
    rfl
  · rw [htr2]
    simp only [emitCount_append, emitCount_legacyChunkActions Event.isError (fun _ => rfl)]
    rfl
  · rw [htr3, emitCount_append]
    rw [processChunks_actions, emitCount_chunkEmits Event.isError (fun _ => rfl)]
    rfl

/-- C3 counterexample: in the tool-calling loop a provider that fails on
its first call — and would succeed on every later one, the
fails-then-succeeds scenario — still produces an `error` event, with no
backoff wait and no retry, contradicting the claimed error-free turn. -/
theorem C3_counterexample :
    eventsOf (stream_openai_with_tools providerFailFirst [] ctx0)
      = [.error "Request timed out" "timeout"]
    ∧ waitsOf (stream_openai_with_tools providerFailFirst [] ctx0) = [] :=
  ⟨rfl, rfl⟩

/-- C3 witness: the amended statement at concrete attempt oracles. -/
theorem C3_witness :
    stream_openai attemptsFailFailOk = legacyChunkActions [] ++ [.wait 1]
        ++ legacyChunkActions [] ++ [.wait 2] ++ legacyChunkActions [some "Hello"]
    ∧ emitCount Event.isError (stream_openai attemptsFailFailOk) = 0
    ∧ waitsOf (stream_openai attemptsFailFailOk) = [1, 2] :=
  (C3_retry_backoff attemptsFailFailOk attemptsAllFail
    ⟨"APIConnectionError", "connection reset"⟩ ⟨"APIConnectionError", "connection reset"⟩
    ⟨"APITimeoutError", "Request timed out"⟩ ⟨"APITimeoutError", "Request timed out"⟩
    ⟨"APITimeoutError", "Request timed out"⟩
    [] [] [some "Hello"] [] [] []
    rfl rfl rfl rfl rfl rfl
    providerFailFirst [] ctx0 ⟨"APITimeoutError", "Request timed out"⟩ [] rfl).1

/-! ## C6 — tool failures are contained -/

/-- C6: a tool handler that raises is caught by `execute_tool` and becomes
`ToolResult(success=False, error_message=str(e))` without re-raising; in the
conversation loop the failure is folded into a `tool` role message
`{"error": str(e)}` appended after the `tool_call` event, and the loop
continues into a subsequent round (`openaiGo ... 9 1`) instead of
terminating with a fatal error. -/
theorem C6_tool_failure_contained
    (registry : List (String × ToolHandler)) (tool_name : String) (handler : ToolHandler)
    (kvs : List (String × Json)) (ctx : ToolCtx) (e : PyExc)
    (hl : lookupTool registry tool_name = some handler)
    (hr : handler kvs ctx = .error e)
    (provider : OProvider) (c : ToolCallObj)
    (h1 : (provider 1).2 = none)
    (h2 : finalizeBuffer (processChunks (provider 1).1) = [c])
    (h3 : c.name = tool_name)
    (h4 : toolArgsOf c.arguments = Json.obj kvs) :
    execute_tool registry tool_name (Json.obj kvs) ctx
      = .ok ⟨tool_name, Json.obj kvs, Json.obj [], false, some e.msg⟩
    ∧ stream_openai_with_tools provider registry ctx
      = (processChunks (provider 1).1).actions
        ++ (.append (.assistant (truthyStr (some (processChunks (provider 1).1).content_buffer)) [c])
            :: [.emit (.toolCall tool_name (Json.obj kvs)),
                .append (.tool c.id (Json.obj [("error", Json.str e.msg)]))])
        ++ openaiGo provider registry ctx 9 1 := by
  have hex : execute_tool registry tool_name (Json.obj kvs) ctx
      = .ok ⟨tool_name, Json.obj kvs, Json.obj [], false, some e.msg⟩ := by
    unfold execute_tool
    simp only [hl, hr]
  refine ⟨hex, ?_⟩
  have hexec : execCalls registry ctx [c]
      = ([.emit (.toolCall tool_name (Json.obj kvs)),
          .append (.tool c.id (Json.obj [("error", Json.str e.msg)]))], none) := by
    unfold execCalls
    simp only [h4, h3, hex]
    simp [optStrJson]
    exact ⟨rfl, rfl⟩
  rw [stream_openai_with_tools, openaiGo]
  simp only [h1, h2, hexec, List.isEmpty_cons, Bool.false_eq_true, if_false]

/-- C6 witness: the always-raising handler `boomHandler` behind tool `t`. -/
theorem C6_witness :
    execute_tool boomRegistry "t" (Json.obj []) ctx0
      = .ok ⟨"t", Json.obj [], Json.obj [], false, some "boom"⟩ :=
  (C6_tool_failure_contained boomRegistry "t" boomHandler [] ctx0 ⟨"ValueError", "boom"⟩
    rfl rfl providerToolThenText ⟨"id1", "t", ""⟩ rfl rfl rfl rfl).1

/-! ## C8 — ordering: tool_call events precede result folds; content in order -/

theorem tma_cons_emit (e : Event) (l : List (Action OMsg)) :
    toolMsgAppendCount (.emit e :: l) = toolMsgAppendCount l := by
  simp [toolMsgAppendCount, List.countP_cons]

theorem tma_cons_append_tool (id : String) (ct : Json) (l : List (Action OMsg)) :
    toolMsgAppendCount (.append (.tool id ct) :: l) = toolMsgAppendCount l + 1 := by
  simp [toolMsgAppendCount, List.countP_cons, OMsg.isToolMsg]

theorem tcEmit_cons_toolCall (nm : String) (a : Json) {μ : Type} (l : List (Action μ)) :
    emitCount Event.isToolCallEv (.emit (.toolCall nm a) :: l)
      = emitCount Event.isToolCallEv l + 1 := by
  simp [emitCount, List.countP_cons, Event.isToolCallEv]

theorem tra_cons_emit (e : Event) (l : List (Action AMsg)) :
    toolResultAppendCount (.emit e :: l) = toolResultAppendCount l := by
  simp [toolResultAppendCount]

theorem tra_cons_append (m : AMsg) (l : List (Action AMsg)) :
    toolResultAppendCount (.append m :: l) = m.toolResultCount + toolResultAppendCount l := by
  simp [toolResultAppendCount]

theorem tma_take_le (l : List (Action OMsg)) (n : Nat) :
    toolMsgAppendCount (l.take n) ≤ toolMsgAppendCount l := by
  conv_rhs => rw [← List.take_append_drop n l]
  rw [toolMsgAppendCount_append]
  exact Nat.le_add_right _ _

theorem tra_take_le (l : List (Action AMsg)) (n : Nat) :
    toolResultAppendCount (l.take n) ≤ toolResultAppendCount l := by
  conv_rhs => rw [← List.take_append_drop n l]
  rw [toolResultAppendCount_append]
  exact Nat.le_add_right _ _

theorem tma_take_zero (A : List (Action OMsg)) (hA : toolMsgAppendCount A = 0) (n : Nat) :
    toolMsgAppendCount (A.take n) = 0 :=
  Nat.le_zero.mp (hA ▸ tma_take_le A n)

theorem tra_take_zero (A : List (Action AMsg)) (hA : toolResultAppendCount A = 0) (n : Nat) :
    toolResultAppendCount (A.take n) = 0 :=
  Nat.le_zero.mp (hA ▸ tra_take_le A n)

/-- Composing a prefix-ordering invariant across concatenation: the left
part satisfies it on its own prefixes, and crossing prefixes respect the
totals of the left part. -/
theorem prefix_le_append {μ : Type} (f g : List (Action μ) → Nat)
    (hf : ∀ a b, f (a ++ b) = f a + f b) (hg : ∀ a b, g (a ++ b) = g a + g b)
    (A B : List (Action μ))
    (hA : ∀ n, f (A.take n) ≤ g (A.take n))
    (hAB : ∀ n, f A + f (B.take n) ≤ g A + g (B.take n)) :
    ∀ n, f ((A ++ B).take n) ≤ g ((A ++ B).take n) := by
  have hf0 : f [] = 0 := by have h := hf [] []; simp at h; omega
  have hg0 : g [] = 0 := by have h := hg [] []; simp at h; omega
  intro n
  rw [List.take_append_eq_append_take, hf, hg]
  rcases Nat.le_total n A.length with h | h
  · have h0 : n - A.length = 0 := Nat.sub_eq_zero_of_le h
    rw [h0]
    simpa [hf0, hg0] using hA n
  · rw [List.take_of_length_le h]
    exact hAB _

/-- Prefix invariant of the OpenAI per-call execution loop: within it, tool
message appends never outrun `tool_call` emits, and its totals keep
appends ≤ emits. -/
theorem execCalls_prefix_le (registry : List (String × ToolHandler)) (ctx : ToolCtx) :
    ∀ calls : List ToolCallObj,
      (∀ n, toolMsgAppendCount ((execCalls registry ctx calls).1.take n)
          ≤ emitCount Event.isToolCallEv ((execCalls registry ctx calls).1.take n))
      ∧ toolMsgAppendCount (execCalls registry ctx calls).1
          ≤ emitCount Event.isToolCallEv (execCalls registry ctx calls).1 := by
  intro calls
  induction calls with
  | nil =>
    exact ⟨fun n => by simp [execCalls, toolMsgAppendCount, emitCount],
      by simp [execCalls, toolMsgAppendCount, emitCount]⟩
  | cons c rest ih =>
    obtain ⟨ihP, ihT⟩ := ih
    unfold execCalls
    cases he : execute_tool registry c.name (toolArgsOf c.arguments) ctx with
    | error e =>
      simp only [he]
      constructor
      · intro n
        match n with
        | 0 => simp [toolMsgAppendCount, emitCount]
        | n+1 =>
          rw [List.take_succ_cons]
          simp [toolMsgAppendCount, emitCount, List.countP_cons]
      · simp [toolMsgAppendCount, emitCount, List.countP_cons]
    | ok r =>
      simp only [he]
      constructor
      · intro n
        match n with
        | 0 => simp [toolMsgAppendCount, emitCount]
        | 1 =>
          rw [List.take_succ_cons]
          simp [toolMsgAppendCount, emitCount, List.countP_cons]
        | n+2 =>
          rw [List.take_succ_cons, List.take_succ_cons, tma_cons_emit, tma_cons_append_tool,
            tcEmit_cons_toolCall, emitCount_cons_append]
          exact Nat.add_le_add_right (ihP n) 1
      · rw [tma_cons_emit, tma_cons_append_tool, tcEmit_cons_toolCall, emitCount_cons_append]
        exact Nat.add_le_add_right ihT 1

/-- When the Anthropic execution loop completes without an exception, it
collected one result per block and emitted one `tool_call` event per
block. -/
theorem execABlocks_success_counts (registry : List (String × ToolHandler)) (ctx : ToolCtx) :
    ∀ blocks : List ABlock, (execABlocks registry ctx blocks).2.2 = none →
      (execABlocks registry ctx blocks).2.1.length = blocks.length
      ∧ emitCount Event.isToolCallEv (execABlocks registry ctx blocks).1 = blocks.length := by
  intro blocks
  induction blocks with
  | nil => intro _; exact ⟨rfl, rfl⟩
  | cons b rest ih =>
    intro hnone
    unfold execABlocks at hnone ⊢
    cases he : execute_tool registry b.name (Json.str b.input) ctx with
    | error e =>
      simp only [he] at hnone
      simp at hnone
    | ok r =>
      simp only [he] at hnone ⊢
      obtain ⟨ih1, ih2⟩ := ih hnone
      refine ⟨by simp [ih1], ?_⟩
      show emitCount Event.isToolCallEv
        (.emit (.toolCall b.name (Json.str b.input)) :: (execABlocks registry ctx rest).1)
        = (b :: rest).length
      rw [tcEmit_cons_toolCall, ih2]
      rfl

theorem tma_cons_append_nontool (m : OMsg) (hm : m.isToolMsg = false) (l : List (Action OMsg)) :
    toolMsgAppendCount (.append m :: l) = toolMsgAppendCount l := by
  simp [toolMsgAppendCount, List.countP_cons, hm]

/-- One OpenAI round followed by anything prefix-ordered is prefix-ordered:
streaming actions append nothing, the assistant message is not a tool
message, and the execution segment keeps appends behind emits. -/
theorem openai_round_ordered (A eacts B : List (Action OMsg)) (amsg : OMsg)
    (hst : toolMsgAppendCount A = 0)
    (hamsg : amsg.isToolMsg = false)
    (hexP : ∀ m, toolMsgAppendCount (eacts.take m)
      ≤ emitCount Event.isToolCallEv (eacts.take m))
    (hexT : toolMsgAppendCount eacts ≤ emitCount Event.isToolCallEv eacts)
    (hB : ∀ m, toolMsgAppendCount (B.take m) ≤ emitCount Event.isToolCallEv (B.take m)) :
    ∀ n, toolMsgAppendCount ((A ++ (.append amsg :: eacts) ++ B).take n)
      ≤ emitCount Event.isToolCallEv ((A ++ (.append amsg :: eacts) ++ B).take n) := by
  have hstP : ∀ m, toolMsgAppendCount (A.take m)
      ≤ emitCount Event.isToolCallEv (A.take m) := by
    intro m
    rw [tma_take_zero A hst m]
    exact Nat.zero_le _
  have hmidP : ∀ m, toolMsgAppendCount ((.append amsg :: eacts).take m)
      ≤ emitCount Event.isToolCallEv ((.append amsg :: eacts).take m) := by
    intro m
    match m with
    | 0 => simp [toolMsgAppendCount, emitCount]
    | m+1 =>
      rw [List.take_succ_cons, tma_cons_append_nontool amsg hamsg, emitCount_cons_append]
      exact hexP m
  have hApre : ∀ m, toolMsgAppendCount ((A ++ (.append amsg :: eacts)).take m)
      ≤ emitCount Event.isToolCallEv ((A ++ (.append amsg :: eacts)).take m) := by
    refine prefix_le_append _ _ toolMsgAppendCount_append
      (emitCount_append Event.isToolCallEv) A _ hstP ?_
    intro m
    have h1 := hmidP m
    rw [hst]
    omega
  have hT : toolMsgAppendCount (A ++ (.append amsg :: eacts))
      ≤ emitCount Event.isToolCallEv (A ++ (.append amsg :: eacts)) := by
    rw [toolMsgAppendCount_append, hst, tma_cons_append_nontool amsg hamsg,
      emitCount_append, emitCount_cons_append]
    omega
  refine prefix_le_append _ _ toolMsgAppendCount_append
    (emitCount_append Event.isToolCallEv) _ B hApre ?_
  intro m
  have h1 := hB m
  omega

/-- Prefix invariant of the OpenAI tool loop: in every prefix of its trace
the `tool`-message appends never outnumber the emitted `tool_call`
events. -/
theorem openaiGo_prefix_le (provider : OProvider) (registry : List (String × ToolHandler))
    (ctx : ToolCtx) :
    ∀ fuel iter n,
      toolMsgAppendCount ((openaiGo provider registry ctx fuel iter).take n)
        ≤ emitCount Event.isToolCallEv ((openaiGo provider registry ctx fuel iter).take n) := by
  intro fuel
  induction fuel with
  | zero =>
    intro iter n
    rw [openaiGo, tma_take_zero _ (by simp [toolMsgAppendCount]) n]
    exact Nat.zero_le _
  | succ fuel ih =>
    intro iter n
    rw [openaiGo]
    cases hpr : provider (iter + 1) with
    | mk chunks exc =>
      have hstf : toolMsgAppendCount (processChunks chunks).actions = 0 := by
        rw [processChunks_actions]
        exact toolMsgAppendCount_chunkEmits _
      have hstP : ∀ m, toolMsgAppendCount ((processChunks chunks).actions.take m)
          ≤ emitCount Event.isToolCallEv ((processChunks chunks).actions.take m) := by
        intro m
        rw [tma_take_zero _ hstf m]
        exact Nat.zero_le _
      obtain ⟨hexP, hexT⟩ := execCalls_prefix_le registry ctx (finalizeBuffer (processChunks chunks))
      have hsingle : ∀ (ev : Event) m,
          toolMsgAppendCount (([(.emit ev : Action OMsg)]).take m)
            ≤ emitCount Event.isToolCallEv (([(.emit ev : Action OMsg)]).take m) := by
        intro ev m
        match m with
        | 0 => simp [toolMsgAppendCount, emitCount]
        | m+1 =>
          rw [List.take_succ_cons, tma_cons_emit]
          simp [toolMsgAppendCount, emitCount, List.countP_cons]
      cases exc with
      | some e =>
        dsimp only
        refine prefix_le_append _ _ toolMsgAppendCount_append
          (emitCount_append Event.isToolCallEv) _ _ hstP ?_ n
        intro m
        have h1 := hsingle (.error e.msg (classify_error e)) m
        rw [hstf]
        omega
      | none =>
        by_cases hbuf : (finalizeBuffer (processChunks chunks)).isEmpty
        · dsimp only
          simp only [hbuf, if_true]
          exact hstP n
        · dsimp only
          simp only [hbuf, Bool.false_eq_true, if_false]
          cases hexc : (execCalls registry ctx (finalizeBuffer (processChunks chunks))).2 with
          | some e =>
            simp only [hexc]
            refine openai_round_ordered _ _ _ _ hstf ?_ hexP hexT
              (hsingle (.error e.msg (classify_error e))) n
            rfl
          | none =>
            simp only [hexc]
            refine openai_round_ordered _ _ _ _ hstf ?_ hexP hexT (ih (iter + 1)) n
            rfl

/-- One successful Anthropic round followed by anything prefix-ordered is
prefix-ordered: the single `tool_result` message is appended only after the
execution segment emitted at least as many `tool_call` events as it carries
result blocks. -/
theorem anthropic_round_ordered (A eacts rec : List (Action AMsg)) (amsg : AMsg)
    (results : List (String × Json))
    (hst : toolResultAppendCount A = 0)
    (hamsg : amsg.toolResultCount = 0)
    (heactsF : toolResultAppendCount eacts = 0)
    (hlen : results.length ≤ emitCount Event.isToolCallEv eacts)
    (hrec : ∀ m, toolResultAppendCount (rec.take m)
      ≤ emitCount Event.isToolCallEv (rec.take m)) :
    ∀ n, toolResultAppendCount
        ((A ++ (Action.append amsg :: eacts) ++ [Action.append (AMsg.toolResults results)] ++ rec).take n)
      ≤ emitCount Event.isToolCallEv
        ((A ++ (Action.append amsg :: eacts) ++ [Action.append (AMsg.toolResults results)] ++ rec).take n) := by
  have hPf : toolResultAppendCount (A ++ (Action.append amsg :: eacts)) = 0 := by
    rw [toolResultAppendCount_append, hst, tra_cons_append, hamsg, heactsF]
  have hPg : results.length ≤ emitCount Event.isToolCallEv (A ++ (Action.append amsg :: eacts)) := by
    rw [emitCount_append, emitCount_cons_append]
    omega
  have hQ : ∀ m, toolResultAppendCount
      (((A ++ (Action.append amsg :: eacts)) ++ [Action.append (AMsg.toolResults results)]).take m)
      ≤ emitCount Event.isToolCallEv
        (((A ++ (Action.append amsg :: eacts)) ++ [Action.append (AMsg.toolResults results)]).take m) := by
    refine prefix_le_append _ _ toolResultAppendCount_append
      (emitCount_append Event.isToolCallEv) _ _ ?_ ?_
    · intro m
      rw [tra_take_zero _ hPf m]
      exact Nat.zero_le _
    · intro m
      rw [hPf]
      match m with
      | 0 => simp [toolResultAppendCount, emitCount]
      | m+1 =>
        rw [List.take_succ_cons, List.take_nil, tra_cons_append]
        have h2 := hPg
        simp only [AMsg.toolResultCount, toolResultAppendCount, List.map_nil, List.sum_nil,
          emitCount, List.countP_cons, List.countP_nil] at h2 ⊢
        omega
  have hQf : toolResultAppendCount
      ((A ++ (Action.append amsg :: eacts)) ++ [Action.append (AMsg.toolResults results)])
      = results.length := by
    rw [toolResultAppendCount_append, hPf, tra_cons_append]
    simp [AMsg.toolResultCount, toolResultAppendCount]
  have hQg : emitCount Event.isToolCallEv
      ((A ++ (Action.append amsg :: eacts)) ++ [Action.append (AMsg.toolResults results)])
      = emitCount Event.isToolCallEv (A ++ (Action.append amsg :: eacts)) := by
    rw [emitCount_append, emitCount_cons_append, emitCount_nil]
    omega
  refine prefix_le_append _ _ toolResultAppendCount_append
    (emitCount_append Event.isToolCallEv) _ _ hQ ?_
  intro m
  have h1 := hrec m
  rw [hQf, hQg]
  omega

/-- Prefix invariant of the Anthropic tool loop: in every prefix of its
trace the appended `tool_result` blocks never outnumber the emitted
`tool_call` events. -/
theorem anthropicGo_prefix_le (provider : AProvider) (registry : List (String × ToolHandler))
    (ctx : ToolCtx) :
    ∀ fuel iter n,
      toolResultAppendCount ((anthropicGo provider registry ctx fuel iter).take n)
        ≤ emitCount Event.isToolCallEv ((anthropicGo provider registry ctx fuel iter).take n) := by
  intro fuel
  induction fuel with
  | zero =>
    intro iter n
    rw [anthropicGo, tra_take_zero _ (by simp [toolResultAppendCount, AMsg.toolResultCount]) n]
    exact Nat.zero_le _
  | succ fuel ih =>
    intro iter n
    rw [anthropicGo]
    cases hpr : provider (iter + 1) with
    | mk evs exc =>
      have hstf : toolResultAppendCount (processAEvents evs).actions = 0 := by
        rw [processAEvents_actions]
        exact toolResultAppendCount_aEventEmits _
      have heactsF := execABlocks_toolResultAppendCount registry ctx
        (processAEvents evs).tool_use_blocks
      cases exc with
      | some e =>
        dsimp only
        rw [tra_take_zero _ (by
          rw [toolResultAppendCount_append, hstf]
          simp [toolResultAppendCount]) n]
        exact Nat.zero_le _
      | none =>
        by_cases hbuf : (processAEvents evs).tool_use_blocks.isEmpty
        · dsimp only
          simp only [hbuf, if_true]
          rw [tra_take_zero _ hstf n]
          exact Nat.zero_le _
        · dsimp only
          simp only [hbuf, Bool.false_eq_true, if_false]
          cases hbc : buildAssistantToolUses (processAEvents evs).tool_use_blocks with
          | error e =>
            simp only [hbc]
            rw [tra_take_zero _ (by
              rw [toolResultAppendCount_append, hstf]
              simp [toolResultAppendCount]) n]
            exact Nat.zero_le _
          | ok toolUses =>
            cases hexc : (execABlocks registry ctx (processAEvents evs).tool_use_blocks).2.2 with
            | some e =>
              simp only [hbc, hexc]
              rw [tra_take_zero _ (by
                rw [toolResultAppendCount_append, toolResultAppendCount_append, hstf,
                  tra_cons_append, heactsF]
                simp [AMsg.toolResultCount, toolResultAppendCount]) n]
              exact Nat.zero_le _
            | none =>
              simp only [hbc, hexc]
              obtain ⟨hlen, hemits⟩ := execABlocks_success_counts registry ctx
                (processAEvents evs).tool_use_blocks hexc
              refine anthropic_round_ordered _ _ _ _ _ hstf ?_ heactsF ?_ (ih (iter + 1)) n
              · rfl
              · rw [hemits]
                exact le_of_eq hlen

/-- The `content` events a streamed OpenAI round forwards are exactly the
truthy content fragments of its chunks, in arrival order. -/
theorem contentsOf_processChunks (chunks : List OpenAIChunk) :
    (eventsOf (processChunks chunks).actions).filterMap Event.contentOf
      = chunks.filterMap (fun ch => truthyStr ch.content) := by
  rw [processChunks_actions]
  induction chunks with
  | nil => rfl
  | cons ch rest ih =>
    rw [List.flatMap_cons, eventsOf_append, List.filterMap_append, List.filterMap_cons]
    unfold chunkEmits
    rcases h : truthyStr ch.content with _ | s
    · simpa using ih
    · simp only [eventsOf, List.filterMap_cons, Event.contentOf]
      simpa using ih

/-- The `content` events a streamed Anthropic round forwards are exactly
the non-empty text deltas of its events, in arrival order. -/
theorem contentsOf_processAEvents (evs : List AEvent) :
    (eventsOf (processAEvents evs).actions).filterMap Event.contentOf
      = evs.filterMap (fun ev => match ev with
          | .text s => if s = "" then none else some s
          | _ => none) := by
  rw [processAEvents_actions]
  induction evs with
  | nil => rfl
  | cons ev rest ih =>
    rw [List.flatMap_cons, eventsOf_append, List.filterMap_append, List.filterMap_cons]
    unfold aEventEmits
    cases ev with
    | text s =>
      by_cases h : s = ""
      · simpa [h] using ih
      · simp only [h, if_false, eventsOf, List.filterMap_cons, Event.contentOf]
        simpa using ih
    | blockStart a b c => simpa using ih
    | blockDelta a b => simpa using ih
    | blockStop => simpa using ih

/-- C8: ordering guarantees of both streaming paths.  In every prefix of a
loop trace, appended tool results never outnumber the `tool_call` events
already emitted — so the `tool_call` event for each call precedes the fold
of its result into the message list for the next provider call (in the
OpenAI loop results are appended as `tool` messages, in the Anthropic loop
as `tool_result` blocks of one user message).  Content deltas are forwarded
in generation order: the `content` events of a round are exactly its truthy
content fragments, in arrival order, with no reordering. -/
theorem C8_ordering (oprovider : OProvider) (aprovider : AProvider)
    (registry : List (String × ToolHandler)) (ctx : ToolCtx) :
    (∀ fuel iter n,
      toolMsgAppendCount ((openaiGo oprovider registry ctx fuel iter).take n)
        ≤ emitCount Event.isToolCallEv ((openaiGo oprovider registry ctx fuel iter).take n))
    ∧ (∀ fuel iter n,
      toolResultAppendCount ((anthropicGo aprovider registry ctx fuel iter).take n)
        ≤ emitCount Event.isToolCallEv ((anthropicGo aprovider registry ctx fuel iter).take n))
    ∧ (∀ chunks : List OpenAIChunk,
      (eventsOf (processChunks chunks).actions).filterMap Event.contentOf
        = chunks.filterMap fun ch => truthyStr ch.content)
    ∧ (∀ evs : List AEvent,
      (eventsOf (processAEvents evs).actions).filterMap Event.contentOf
        = evs.filterMap fun ev => match ev with
            | .text s => if s = "" then none else some s
            | _ => none) :=
  ⟨openaiGo_prefix_le oprovider registry ctx,
   anthropicGo_prefix_le aprovider registry ctx,
   contentsOf_processChunks,
   contentsOf_processAEvents⟩

/-! ## C9 — RAG failures -/

/-- C9 counterexample: a full `chat_endpoint` turn in which the RAG
collaborator raises a connection error (the model calls
`search_activities({"query": "art"})` against a store whose network calls
all raise).  The emitted stream contains *zero* `error` events — not the
claimed one `network` error event: `VectorStore.search` swallows the
exception, the tool succeeds with no results, and the turn continues to a
normal `done`.  (`chat_endpoint` performs no RAG pre-fetch at all.) -/
theorem C9_counterexample :
    chat_endpoint cfgOpenai safetyOk providerSearchThenText aProviderEmpty
        (builtinTools downWeather) ctxFailingStore reqC9
      = [.toolCall "search_activities" (.obj [("query", .str "art")]),
         .content "No matches found.", .done (some "sess1")]
    ∧ (chat_endpoint cfgOpenai safetyOk providerSearchThenText aProviderEmpty
        (builtinTools downWeather) ctxFailingStore reqC9).countP Event.isError = 0 :=
  ⟨rfl, rfl⟩

/-- C9 (amended): when the RAG collaborator raises — in either of its two
network calls (embedding or vector query) — `VectorStore.search` catches
the exception and returns the empty list, and the `search_activities` tool
reports a *successful* result with zero activities; no `error` event is
produced on account of the RAG failure and the turn continues without
retrieved context. -/
theorem C9_rag_failure_swallowed
    (vs vs2 : VectorStoreO) (q q2 : String) (k k2 : Nat) (fd fd2 : Option Json)
    (e e2 : PyExc) (uid : String)
    (hEmbed : vs.embedResult q = .error e)
    (hQuery : vs2.queryResult (get_embedding vs2 q2) k2 fd2 = .error e2) :
    VectorStore.search vs q k fd = []
    ∧ VectorStore.search vs2 q2 k2 fd2 = []
    ∧ search_activities_tool [("query", Json.str q)] ⟨uid, some vs⟩
        = .ok (Json.obj [("success", Json.bool true), ("query", Json.str q),
            ("age_group", Json.null), ("activity_type", Json.null),
            ("count", Json.num 0), ("activities", Json.arr [])]) := by
  have hemb : get_embedding vs q = [] := by
    unfold get_embedding
    rw [hEmbed]
  have hs1 : ∀ (k' : Nat) (fd' : Option Json), VectorStore.search vs q k' fd' = [] := by
    intro k' fd'
    unfold VectorStore.search
    simp [hemb]
  have hs2 : VectorStore.search vs2 q2 k2 fd2 = [] := by
    unfold VectorStore.search
    by_cases hh : (get_embedding vs2 q2).isEmpty
    · simp [hh]
    · simp [hh, hQuery]
  refine ⟨hs1 k fd, hs2, ?_⟩
  unfold search_activities_tool
  simp only [lookupStrKw, lookupKw]
  simp [rag_search_activities, truthyStr, hs1, optStrJson]

/-- C9 witness: the amended statement at the concrete failing store. -/
theorem C9_witness :
    VectorStore.search failingStore "art" 5 none = [] :=
  (C9_rag_failure_swallowed failingStore failingStore "art" "art" 5 5 none none
    ⟨"ConnectionError", "connection refused"⟩ ⟨"ConnectionError", "connection refused"⟩
    "anonymous" rfl rfl).1

end KCP
